import Mathlib

set_option synthInstance.maxSize 1024

/-
Verification of the stepwise path-finding search engine (src/search.py, src/enums.py)
against its natural-language specification.  The Python classes are shallowly embedded:
the 2D list grid becomes a list of lists of cells with Python list-index semantics
(negative indices wrap once, indices past the end raise), stateful methods become
state-passing functions, and code that can raise returns Option (none models a raised
exception).  Loops with no structural bound (the ancestor-chain walks and the recursive
stale-entry skip) are embedded with explicit fuel; comments at each such definition
justify the fuel used as realizing the exact Python semantics.
-/

namespace PathFinder

/-- Grid cell states, mirroring GridState in enums.py. -/
inductive GridState where
  | START
  | GOAL
  | OBSTACLE
  | UNEXPLORED
  | SEEN
  | CURRENT
  | PATH
  deriving DecidableEq, Repr

/-- Algorithm selector, mirroring Algorithm in enums.py. -/
inductive Algorithm where
  | BFS
  | DFS
  | A_STAR
  | GREEDY_BFS
  | BEAM
  deriving DecidableEq, Repr

/-- String value of each Algorithm member, from enums.py. -/
def Algorithm.value : Algorithm → String
  | .BFS => "Breadth First Search"
  | .DFS => "Depth First Search"
  | .A_STAR => "A*"
  | .GREEDY_BFS => "Greedy Best First Search"
  | .BEAM => "Beam Search"

/-- Positions are (x, y) integer pairs.  Python tuples of ints may be negative
(neighbor arithmetic produces -1 at the border before the bounds check), so the
components are integers, not naturals. -/
abbrev Pos := Int × Int

/-- Cell record from enums.py: a grid state plus an optional ancestor back-reference.
Cell() constructs an UNEXPLORED cell with ancestor None. -/
structure Cell where
  gridState : GridState := .UNEXPLORED
  ancestor : Option Pos := none
  deriving DecidableEq, Repr

/-- The grid is the list-of-lists self.grid of SearchManager, indexed grid[x][y]. -/
abbrev Grid := List (List Cell)

/-- Python list index resolution for a list of length n: an index i with 0 <= i < n is
itself, an index with -n <= i < 0 wraps once to n + i, anything else raises IndexError
(modeled as none).  This captures the exact semantics of indexing self.grid. -/
def pyIdx (n : Nat) (i : Int) : Option Nat :=
  if 0 ≤ i ∧ i < (n : Int) then some i.toNat
  else if -(n : Int) ≤ i ∧ i < 0 then some ((n : Int) + i).toNat
  else none

/-- Reading self.grid[p.1][p.2] with Python index semantics. -/
def gridGetCell (g : Grid) (p : Pos) : Option Cell :=
  (pyIdx g.length p.1).bind fun xi =>
    g[xi]?.bind fun row =>
      (pyIdx row.length p.2).bind fun yi => row[yi]?

/-- Updating the cell at self.grid[p.1][p.2] with Python index semantics. -/
def gridModifyCell (g : Grid) (p : Pos) (f : Cell → Cell) : Option Grid :=
  (pyIdx g.length p.1).bind fun xi =>
    g[xi]?.bind fun row =>
      (pyIdx row.length p.2).bind fun yi =>
        row[yi]?.bind fun c => some (g.set xi (row.set yi (f c)))

/-- Assignment self.grid[p.1][p.2].gridState = st. -/
def gridSetGridState (g : Grid) (p : Pos) (st : GridState) : Option Grid :=
  gridModifyCell g p (fun c => { c with gridState := st })

/-- Assignment self.grid[p.1][p.2].ancestor = a. -/
def gridSetAncestor (g : Grid) (p : Pos) (a : Option Pos) : Option Grid :=
  gridModifyCell g p (fun c => { c with ancestor := a })

/-- Assignment self.grid[p.1][p.2] = c (replacing the whole cell object). -/
def gridSetCell (g : Grid) (p : Pos) (c : Cell) : Option Grid :=
  gridModifyCell g p (fun _ => c)

/-- Priority key stored in the A* queue.  The Python entry key is the float
heuristic(pos) + pathLength(last_explored), i.e. the square root of the first
component plus the second component; no claim checked here depends on comparing
key magnitudes, so the embedding carries the radicand and the path cost exactly. -/
abbrev AStarKey := Nat × Nat

/-- State of the SearchManager object of search.py. -/
structure SearchManager where
  size : Nat
  grid : Grid
  bfs_queue : List Pos
  dfs_stack : List Pos
  a_star_queue : List (AStarKey × Pos)
  greedy_bfs_queue : List (Nat × Pos)
  beam_size : Nat
  beam_queue : List (Nat × Pos)
  goal_pos : Option Pos
  start_pos : Option Pos
  path_started : Bool
  last_explored : Option Pos
  finished : Bool
  cells_visited : Nat
  deriving DecidableEq, Repr

/-- SearchManager.__init__(_size, _beam_size): a fresh _size by _size grid of
UNEXPLORED cells, all frontiers empty, run state at its zero values. -/
def init (size : Nat) (beam_size : Nat) : SearchManager where
  size := size
  grid := List.replicate size (List.replicate size {})
  bfs_queue := []
  dfs_stack := []
  a_star_queue := []
  greedy_bfs_queue := []
  beam_size := beam_size
  beam_queue := []
  goal_pos := none
  start_pos := none
  path_started := false
  last_explored := none
  finished := false
  cells_visited := 0

/-- Well-formedness of the state as built by __init__ and preserved by every
operation: the grid is a size by size matrix. -/
def WF (s : SearchManager) : Prop :=
  s.grid.length = s.size ∧ ∀ row ∈ s.grid, row.length = s.size

instance (s : SearchManager) : Decidable (WF s) := by
  unfold WF; infer_instance

/-- Outcome of running a Python loop with a given amount of fuel: it returned a
value, it raised an exception, or it was still running when the fuel ran out. -/
inductive PyRun (α : Type) where
  | ret : α → PyRun α
  | exn : PyRun α
  | spin : PyRun α
  deriving DecidableEq, Repr

/-- Radicand of the Euclidean heuristic of search.py: heuristic(pos) returns the
float square root of this value.  The claims checked here never depend on the
numeric value of a key, so the embedding carries the radicand.  Unpacking a missing
goal_pos raises in Python, hence the Option result. -/
def heuristicSq (s : SearchManager) (pos : Pos) : Option Nat :=
  match s.goal_pos with
  | none => none
  | some (gx, gy) => some ((gx - pos.1) ^ 2 + (gy - pos.2) ^ 2).toNat

/-- Fueled body of SearchManager.pathLength: while pos != self.start_pos, increment
the count and follow the ancestor of the cell at pos.  The count accumulator starts
at 0.  A None position that is not the start raises on unpacking (exn), as does an
index past the grid (IndexError). -/
def pathLengthF (s : SearchManager) : Nat → Option Pos → Nat → PyRun Nat
  | 0, _, _ => .spin
  | fuel + 1, pos, count =>
    if pos = s.start_pos then .ret count
    else
      match pos with
      | none => .exn
      | some p =>
        match gridGetCell s.grid p with
        | none => .exn
        | some c => pathLengthF s fuel c.ancestor (count + 1)

/-- Fuel that realizes the exact semantics of the unbounded Python walk: the walk
only reads ancestor fields and never writes them, so the position sequence is
determined by the grid; every position after the first is the content of one of the
at most size * size ancestor fields the walk can reach, so if the walk has neither
returned nor raised within size * size + 2 iterations it has repeated a position
and therefore repeats forever.  Thus spin at this fuel models true divergence. -/
def plFuel (s : SearchManager) : Nat :=
  s.size * s.size + 2

/-- SearchManager.pathLength(pos): the number of ancestor hops from pos back to
start, by the unbounded while walk, run at the divergence-detecting fuel. -/
def pathLength (s : SearchManager) (pos : Option Pos) : PyRun Nat :=
  pathLengthF s (plFuel s) pos 0

/-- Fueled body of the while loop of SearchManager.colorPath: while start_pos is not
cell_pos, mark the cell at cell_pos PATH and follow its ancestor.  The walk reads the
cell, recolors it, and moves on; ancestors are never written, so the same fuel
argument as for pathLength applies. -/
def colorWalkF (start_pos : Option Pos) : Nat → Grid → Option Pos → PyRun Grid
  | 0, _, _ => .spin
  | fuel + 1, g, cell_pos =>
    if start_pos = cell_pos then .ret g
    else
      match cell_pos with
      | none => .exn
      | some p =>
        match gridGetCell g p with
        | none => .exn
        | some c =>
          match gridSetGridState g p .PATH with
          | none => .exn
          | some g1 => colorWalkF start_pos fuel g1 c.ancestor

/-- SearchManager.colorPath: start from the ancestor of the cell at last_explored
and walk the chain, marking each visited cell PATH, until the position equals
start_pos. -/
def colorPath (s : SearchManager) : PyRun Grid :=
  match s.last_explored with
  | none => .exn
  | some le =>
    match gridGetCell s.grid le with
    | none => .exn
    | some c => colorWalkF s.start_pos (plFuel s) s.grid c.ancestor

/-- The parameters search_impl receives in search.py: the frontier object (queried
only for its length and scanned for membership by add_neighbors) together with the
get_next, add and handleExistingNeighbor closures.  The closures mutate the manager,
so here each takes and returns the state; fallible ones return Option. -/
structure FrontierOps where
  flen : SearchManager → Nat
  getNext : SearchManager → Option (Pos × SearchManager)
  add : SearchManager → Pos → Option SearchManager
  isIn : SearchManager → Pos → Bool
  handleExisting : SearchManager → Pos → Option SearchManager

/-- Lines 277-281 of search.py: when the previously explored cell is not the
start, demote it from CURRENT to SEEN; a None last_explored raises on unpacking
and an unresolvable index raises IndexError, both modeled by none. -/
def unsetLastSeen (s : SearchManager) : Option SearchManager :=
  if s.last_explored ≠ s.start_pos then
    match s.last_explored with
    | none => none
    | some p => (gridSetGridState s.grid p .SEEN).map (fun g => { s with grid := g })
  else some s

/-- Lines 286-289 of search.py: record the taken cell as last_explored, color it
CURRENT and count it as visited. -/
def markCurrent (s2 : SearchManager) (nxt : Pos) : Option SearchManager :=
  (gridSetGridState s2.grid nxt .CURRENT).map fun g =>
    { s2 with grid := g
              last_explored := some nxt
              cells_visited := s2.cells_visited + 1 }

/-- The not-yet-started branch of explore_next (lines 274-276 followed by the
stale-obstacle check of lines 297-303): record the start as last explored, flag the
path as started, and fall through to the obstacle test, whose retry is the
continuation k. -/
def exploreStart (k : SearchManager → Option (Bool × SearchManager × Nat))
    (s : SearchManager) : Option (Bool × SearchManager × Nat) :=
  let s1 := { s with last_explored := s.start_pos, path_started := true }
  match s1.last_explored with
  | none => none
  | some p =>
    match gridGetCell s1.grid p with
    | none => none
    | some c =>
      if c.gridState = .OBSTACLE then k s1
      else some (true, s1, 0)

/-- The running branch of explore_next (lines 277-303): demote the previous cell,
stop with False on an empty frontier, otherwise take the next position, mark it
CURRENT, finish if it is the goal, and run the stale-obstacle check of lines
297-303, whose retry is the continuation k; the Nat counts take-next calls. -/
def exploreRunning (ops : FrontierOps)
    (k : SearchManager → Option (Bool × SearchManager × Nat))
    (s : SearchManager) : Option (Bool × SearchManager × Nat) :=
  match unsetLastSeen s with
  | none => none
  | some s1 =>
    if ops.flen s1 < 1 then some (false, s1, 0)
    else
      match ops.getNext s1 with
      | none => none
      | some (nxt, s2) =>
        match markCurrent s2 nxt with
        | none => none
        | some s3 =>
          if s3.last_explored = s3.goal_pos then
            match colorPath s3 with
            | .ret g2 => some (false, { s3 with grid := g2, finished := true }, 1)
            | _ => none
          else
            match gridGetCell s3.grid nxt with
            | none => none
            | some c =>
              if c.gridState = .OBSTACLE then
                match k s3 with
                | none => none
                | some (b, s4, n) => some (b, s4, n + 1)
              else some (true, s3, 1)

/-- Fueled embedding of SearchManager.explore_next.  The source function calls
itself at the stale-obstacle check (lines 299-301 of search.py), so the embedding
takes fuel, one unit per activation, and passes itself at the next lower fuel as
the retry continuation; none models either a raised exception or fuel running out.
Every nested activation beyond the first either returns without a take-next or
removes one frontier element first, so flen + 2 units always realize the Python
semantics (search_impl passes exactly that); the termination theorem for claim C7
sharpens this to 2 units for every state.  The Nat in the result counts the
get_next invocations of the whole call; it instruments the take-next count for the
termination claims and has no counterpart in the source, while the Bool and the
state follow the source exactly. -/
def exploreNextF (ops : FrontierOps) : Nat → SearchManager → Option (Bool × SearchManager × Nat)
  | 0, _ => none
  | fuel + 1, s =>
    if s.finished then some (false, s, 0)
    else if s.path_started = false then exploreStart (exploreNextF ops fuel) s
    else exploreRunning ops (exploreNextF ops fuel) s


/-- The four cardinal offsets scanned by SearchManager.add_neighbors, in source
order: up, right, down, left. -/
def neighborOffsets : List (Int × Int) := [(-1, 0), (0, 1), (1, 0), (0, -1)]

/-- One iteration of the loop of SearchManager.add_neighbors, for the offset off,
with xy the (x, y) pair unpacked from last_explored before the loop.  In bounds and
UNEXPLORED or GOAL: if the frontier scan reports the position, call the
handleExistingNeighbor closure, otherwise add it and set its ancestor to
last_explored.  Anything else leaves the state unchanged. -/
def addNeighborsFor (ops : FrontierOps) (xy : Pos) (s : SearchManager)
    (off : Int × Int) : Option SearchManager :=
  let current : Pos := (xy.1 + off.1, xy.2 + off.2)
  if 0 ≤ current.1 ∧ current.1 < (s.size : Int) ∧ 0 ≤ current.2 ∧ current.2 < (s.size : Int) then
    match gridGetCell s.grid current with
    | none => none
    | some c =>
      if c.gridState = .UNEXPLORED ∨ c.gridState = .GOAL then
        if ops.isIn s current then ops.handleExisting s current
        else
          match ops.add s current with
          | none => none
          | some s1 =>
            match gridSetAncestor s1.grid current s1.last_explored with
            | none => none
            | some g => some { s1 with grid := g }
      else some s
  else some s

/-- SearchManager.add_neighbors: unpack last_explored (raising if it is None) and
run the loop body over the four cardinal offsets. -/
def add_neighbors (ops : FrontierOps) (s : SearchManager) : Option SearchManager :=
  match s.last_explored with
  | none => none
  | some xy => neighborOffsets.foldlM (addNeighborsFor ops xy) s

/-- SearchManager.search_impl: one explore_next (at the always-sufficient fuel, see
exploreNextF), then add_neighbors when it returned True. -/
def search_impl (ops : FrontierOps) (s : SearchManager) : Option SearchManager :=
  match exploreNextF ops (ops.flen s + 2) s with
  | none => none
  | some (cont, s1, _) => if cont then add_neighbors ops s1 else some s1

/-- Frontier closures the bfs method passes to search_impl: the FIFO deque, with
popleft taking from the front and append adding at the back.  The membership scan
of add_neighbors compares plain position tuples, so it is list membership.  The
handleExistingNeighbor argument is the default no-op lambda. -/
def bfsOps : FrontierOps where
  flen s := s.bfs_queue.length
  getNext s :=
    match s.bfs_queue with
    | [] => none
    | p :: rest => some (p, { s with bfs_queue := rest })
  add s p := some { s with bfs_queue := s.bfs_queue ++ [p] }
  isIn s p := s.bfs_queue.contains p
  handleExisting s _ := some s

/-- SearchManager.dfs_handle_existing_neighbor: remove the first occurrence of
current from the stack (list.remove raises if it is absent), append it at the end,
and rewrite the ancestor of its cell to last_explored. -/
def dfs_handle_existing_neighbor (s : SearchManager) (current : Pos) : Option SearchManager :=
  if s.dfs_stack.contains current then
    let s1 := { s with dfs_stack := s.dfs_stack.erase current ++ [current] }
    match gridSetAncestor s1.grid current s1.last_explored with
    | none => none
    | some g => some { s1 with grid := g }
  else none

/-- Frontier closures of the dfs method: the LIFO list, popping and appending at
the end, with dfs_handle_existing_neighbor for already-queued neighbors. -/
def dfsOps : FrontierOps where
  flen s := s.dfs_stack.length
  getNext s :=
    match s.dfs_stack.getLast? with
    | none => none
    | some p => some (p, { s with dfs_stack := s.dfs_stack.dropLast })
  add s p := some { s with dfs_stack := s.dfs_stack ++ [p] }
  isIn s p := s.dfs_stack.contains p
  handleExisting := dfs_handle_existing_neighbor

/-- Strict lexicographic order on position tuples, as Python compares int pairs. -/
def posLt (p q : Pos) : Bool :=
  decide (p.1 < q.1) || (decide (p.1 = q.1) && decide (p.2 < q.2))

/-- Decides sqrt a + c < sqrt b + d over the reals by integer arithmetic (Python
compares the corresponding floats; every concrete comparison exercised by the
theorems below is between exactly representable values, where the two agree).
With m = d - c: for m >= 0 the inequality is a - b - m ^ 2 < 2 m sqrt b, which
holds iff the left side is negative or its square is below 4 m ^ 2 b; for m < 0 it
is 2 (-m) sqrt a < b - a - m ^ 2, which holds iff the right side is positive and
4 m ^ 2 a is below its square. -/
def sqrtAddLt (a c b d : Nat) : Bool :=
  let m : Int := (d : Int) - (c : Int)
  if 0 ≤ m then
    let t : Int := (a : Int) - (b : Int) - m ^ 2
    decide (t < 0) || decide (t ^ 2 < 4 * m ^ 2 * (b : Int))
  else
    let t : Int := (b : Int) - (a : Int) - m ^ 2
    decide (0 < t) && decide (4 * m ^ 2 * (a : Int) < t ^ 2)

/-- Order on A* heap entries: Python compares (priority, position) tuples, so the
float keys first and the position tuples on ties. -/
def aStarEntryLt (e1 e2 : AStarKey × Pos) : Bool :=
  sqrtAddLt e1.1.1 e1.1.2 e2.1.1 e2.1.2 ||
    (!sqrtAddLt e1.1.1 e1.1.2 e2.1.1 e2.1.2 && !sqrtAddLt e2.1.1 e2.1.2 e1.1.1 e1.1.2 &&
      posLt e1.2 e2.2)

/-- Order on greedy-best-first heap entries: the key is heuristic(pos) alone,
i.e. sqrt of the radicand with path cost 0. -/
def greedyEntryLt (e1 e2 : (Nat × Pos)) : Bool :=
  sqrtAddLt e1.1 0 e2.1 0 ||
    (!sqrtAddLt e1.1 0 e2.1 0 && !sqrtAddLt e2.1 0 e1.1 0 && posLt e1.2 e2.2)

/-- Removes a minimal element under lt, earliest occurrence on ties.
heapq.heappop returns a minimal entry of the heap list; which one it returns among
equal entries depends on the push history, and no claim checked here depends on
that choice, so the embedding takes the earliest. -/
def popMinBy {α : Type} (lt : α → α → Bool) : List α → Option (α × List α)
  | [] => none
  | x :: xs =>
    match popMinBy lt xs with
    | none => some (x, [])
    | some (m, rest) => if lt m x then some (m, x :: rest) else some (x, xs)

/-- Membership scan of add_neighbors over a heap queue: Python compares each entry,
a (priority, position) pair, against the bare position pair with the == of tuples,
which compares componentwise; the second component compares a position tuple with
an integer, which is never equal, so every comparison is False and the scan never
reports membership, whatever the queue holds. -/
def heapEntryEqPos {κ : Type} (_entry : κ × Pos) (_current : Pos) : Bool := false

/-- The add closure of the a_star method: push the pair of the key
heuristic(current) + pathLength(last_explored) and the position.  heapq.heappush
keeps the list heap-arranged by the entry order; no claim checked here depends on
the arrangement, so the embedding tracks the entries by appending. -/
def a_star_add (s : SearchManager) (current : Pos) : Option SearchManager :=
  match heuristicSq s current with
  | none => none
  | some h =>
    match pathLength s s.last_explored with
    | .ret c => some { s with a_star_queue := s.a_star_queue ++ [((h, c), current)] }
    | _ => none

/-- Frontier closures of the a_star method. -/
def aStarOps : FrontierOps where
  flen s := s.a_star_queue.length
  getNext s :=
    match popMinBy aStarEntryLt s.a_star_queue with
    | none => none
    | some (e, rest) => some (e.2, { s with a_star_queue := rest })
  add := a_star_add
  isIn s current := s.a_star_queue.any (fun e => heapEntryEqPos e current)
  handleExisting s _ := some s

/-- The add closure of the greedy_bfs method: push the pair of the key
heuristic(current) and the position. -/
def greedy_add (s : SearchManager) (current : Pos) : Option SearchManager :=
  match heuristicSq s current with
  | none => none
  | some h => some { s with greedy_bfs_queue := s.greedy_bfs_queue ++ [(h, current)] }

/-- Frontier closures of the greedy_bfs method. -/
def greedyOps : FrontierOps where
  flen s := s.greedy_bfs_queue.length
  getNext s :=
    match popMinBy greedyEntryLt s.greedy_bfs_queue with
    | none => none
    | some (e, rest) => some (e.2, { s with greedy_bfs_queue := rest })
  add := greedy_add
  isIn s current := s.greedy_bfs_queue.any (fun e => heapEntryEqPos e current)
  handleExisting s _ := some s

/-- SearchManager.bfs. -/
def bfs (s : SearchManager) : Option SearchManager :=
  search_impl bfsOps s

/-- SearchManager.dfs. -/
def dfs (s : SearchManager) : Option SearchManager :=
  search_impl dfsOps s

/-- SearchManager.a_star. -/
def a_star (s : SearchManager) : Option SearchManager :=
  search_impl aStarOps s

/-- SearchManager.greedy_bfs. -/
def greedy_bfs (s : SearchManager) : Option SearchManager :=
  search_impl greedyOps s

/-- SearchManager.beam: the body of the source method is the single statement
pass, so the call returns with the manager untouched. -/
def beam (s : SearchManager) (_n : Nat) : Option SearchManager :=
  some s

/-- SearchManager.search: dispatch one step of the selected algorithm. -/
def search (s : SearchManager) (algo : Algorithm) : Option SearchManager :=
  match algo with
  | .BFS => bfs s
  | .DFS => dfs s
  | .GREEDY_BFS => greedy_bfs s
  | .A_STAR => a_star s
  | .BEAM => beam s s.beam_size

/-- SearchManager.reset_grid: rebuild the grid by a comprehension over range(size)
twice, keeping the state (with a fresh ancestor) of every cell that is neither SEEN
nor PATH and replacing SEEN and PATH cells by fresh UNEXPLORED cells; then, if
last_explored is set, replace its cell by a fresh UNEXPLORED cell; then, if
goal_pos is set, replace its cell by a fresh GOAL cell.  A Python tuple is truthy
whatever its contents, so the two if tests are exactly the is-set tests. -/
def reset_grid (s : SearchManager) : Option SearchManager :=
  ((List.range s.size).mapM (fun x => (List.range s.size).mapM (fun y =>
    s.grid[x]?.bind fun row =>
      row[y]?.bind fun c =>
        some (if c.gridState ≠ GridState.SEEN ∧ c.gridState ≠ GridState.PATH then
                { gridState := c.gridState, ancestor := none }
              else ({} : Cell))))).bind fun g1 =>
  (match s.last_explored with
    | some le => (gridSetCell g1 le {}).bind fun g =>
        some { s with grid := g }
    | none => some { s with grid := g1 }).bind fun s2 =>
  match s2.goal_pos with
  | some gp => (gridSetCell s2.grid gp { gridState := .GOAL }).bind fun g =>
      some { s2 with grid := g }
  | none => some s2

/-- SearchManager.reset: reset_grid, then all run-state fields back to their zero
values and every frontier structure emptied. -/
def reset (s : SearchManager) : Option SearchManager :=
  (reset_grid s).bind fun s1 =>
  some { s1 with path_started := false
                 last_explored := none
                 finished := false
                 cells_visited := 0
                 bfs_queue := []
                 greedy_bfs_queue := []
                 dfs_stack := []
                 a_star_queue := []
                 beam_queue := [] }

/-- SearchManager.set_goal: demote the previous goal cell (when goal_pos is not
None) to UNEXPLORED, record the new goal_pos, and mark its cell GOAL.  There is no
bounds check: the grid indexing itself decides what happens to an out-of-range
position. -/
def set_goal (s : SearchManager) (goal : Pos) : Option SearchManager := do
  let s1 ← match s.goal_pos with
    | some old => do
        let g ← gridSetGridState s.grid old .UNEXPLORED
        pure { s with grid := g }
    | none => pure s
  let s2 := { s1 with goal_pos := some goal }
  let g ← gridSetGridState s2.grid goal .GOAL
  return { s2 with grid := g }

/-- SearchManager.set_start: reset first when a path has been started, demote the
previous start cell (when start_pos is not None) to UNEXPLORED, record the new
start_pos, and mark its cell START.  As with set_goal there is no bounds check. -/
def set_start (s : SearchManager) (start : Pos) : Option SearchManager := do
  let s0 ← if s.path_started then reset s else pure s
  let s1 ← match s0.start_pos with
    | some old => do
        let g ← gridSetGridState s0.grid old .UNEXPLORED
        pure { s0 with grid := g }
    | none => pure s0
  let s2 := { s1 with start_pos := some start }
  let g ← gridSetGridState s2.grid start .START
  return { s2 with grid := g }

/-- Metrics dictionary returned by SearchManager.run_algorithm_to_completion. -/
structure Metrics where
  algorithm : String
  cells_visited : Nat
  path_length : Nat
  goal_reached : Bool
  deriving DecidableEq, Repr

/-- The while loop of SearchManager.run_algorithm_to_completion, with the fuel
standing for max_steps - steps: while not finished and steps below max_steps, run
one search step and stop early if path_started went back to False (the steps
counter is positive as soon as one step ran, so that conjunct of the break test is
always true here). -/
def runLoopAux (algo : Algorithm) : Nat → SearchManager → Option SearchManager
  | 0, s => some s
  | n + 1, s =>
    if s.finished then some s
    else
      match search s algo with
      | none => none
      | some s1 => if s1.path_started = false then some s1 else runLoopAux algo n s1

/-- The loop and metrics assembly of SearchManager.run_algorithm_to_completion,
i.e. the method minus its leading reset call: run the loop from the given state,
then report the metrics, computing pathLength(goal_pos) only when finished and
reporting goal_reached as the finished flag. -/
def runLoopMetrics (algo : Algorithm) (maxSteps : Nat) (s : SearchManager) : Option Metrics :=
  match runLoopAux algo maxSteps s with
  | none => none
  | some s1 =>
    if s1.finished then
      match pathLength s1 s1.goal_pos with
      | .ret n => some ⟨algo.value, s1.cells_visited, n, s1.finished⟩
      | _ => none
    else some ⟨algo.value, s1.cells_visited, 0, s1.finished⟩

/-- SearchManager.run_algorithm_to_completion: reset everything first, then run up
to max_steps = size ** 2 * 2 steps and assemble the metrics. -/
def run_algorithm_to_completion (s : SearchManager) (algo : Algorithm) : Option Metrics :=
  match reset s with
  | none => none
  | some s0 => runLoopMetrics algo (s0.size * s0.size * 2) s0

/-- In-bounds positions: both coordinates between 0 inclusive and size exclusive.
This is the bounds test of add_neighbors and the positions for which Python list
indexing resolves without wrapping. -/
def inB (size : Nat) (p : Pos) : Prop :=
  0 ≤ p.1 ∧ p.1 < (size : Int) ∧ 0 ≤ p.2 ∧ p.2 < (size : Int)

instance (size : Nat) (p : Pos) : Decidable (inB size p) := by
  unfold inB; infer_instance

/-- A grid that is an n by n matrix (the WF condition on the grid field). -/
def okGrid (n : Nat) (g : Grid) : Prop :=
  g.length = n ∧ ∀ row ∈ g, row.length = n

lemma pyIdx_of_inb {n : Nat} {i : Int} (h0 : 0 ≤ i) (h1 : i < (n : Int)) :
    pyIdx n i = some i.toNat := by
  unfold pyIdx
  rw [if_pos ⟨h0, h1⟩]


lemma gridGetCell_inb {n : Nat} {g : Grid} {p : Pos} (hg : okGrid n g) (hp : inB n p) :
    ∃ c, gridGetCell g p = some c := by
  obtain ⟨hlen, hrows⟩ := hg
  obtain ⟨h1, h2, h3, h4⟩ := hp
  have hxi : pyIdx g.length p.1 = some p.1.toNat := by
    rw [hlen]; exact pyIdx_of_inb h1 h2
  have hxlt : p.1.toNat < g.length := by rw [hlen]; omega
  obtain ⟨row, hrow⟩ : ∃ row, g[p.1.toNat]? = some row := by
    simp [List.getElem?_eq_some_iff, hxlt]
  have hrlen : row.length = n := hrows row (by
    obtain ⟨hh, hhe⟩ := List.getElem?_eq_some_iff.mp hrow
    exact hhe ▸ List.getElem_mem hh)
  have hyi : pyIdx row.length p.2 = some p.2.toNat := by
    rw [hrlen]; exact pyIdx_of_inb h3 h4
  have hylt : p.2.toNat < row.length := by rw [hrlen]; omega
  obtain ⟨c, hc⟩ : ∃ c, row[p.2.toNat]? = some c := by
    simp [List.getElem?_eq_some_iff, hylt]
  refine ⟨c, ?_⟩
  rw [gridGetCell, hxi, Option.some_bind, hrow, Option.some_bind, hyi, Option.some_bind, hc]

/-- Successful reads expose the resolved indices. -/
lemma gridGetCell_some {g : Grid} {p : Pos} {c : Cell} (h : gridGetCell g p = some c) :
    ∃ xi row yi, pyIdx g.length p.1 = some xi ∧ g[xi]? = some row ∧
      pyIdx row.length p.2 = some yi ∧ row[yi]? = some c := by
  rw [gridGetCell] at h
  simp only [Option.bind_eq_some] at h
  obtain ⟨xi, hxi, row, hrow, yi, hyi, hc⟩ := h
  exact ⟨xi, row, yi, hxi, hrow, hyi, hc⟩

/-- A successful read makes the corresponding update succeed, the updated grid
has the same shape and reads back the modified cell at the same position. -/
lemma gridModify_of_get {g : Grid} {p : Pos} {c : Cell} (f : Cell → Cell)
    (h : gridGetCell g p = some c) :
    ∃ g1, gridModifyCell g p f = some g1 ∧
      gridGetCell g1 p = some (f c) ∧
      g1.length = g.length ∧
      (∀ n, okGrid n g → okGrid n g1) := by
  obtain ⟨xi, row, yi, hxi, hrow, hyi, hc⟩ := gridGetCell_some h
  have hxlt : xi < g.length := (List.getElem?_eq_some_iff.mp hrow).1
  have hylt : yi < row.length := (List.getElem?_eq_some_iff.mp hc).1
  refine ⟨g.set xi (row.set yi (f c)), ?_, ?_, by simp, ?_⟩
  · rw [gridModifyCell, hxi, Option.some_bind, hrow, Option.some_bind, hyi,
      Option.some_bind, hc, Option.some_bind]
  · have hlen : (g.set xi (row.set yi (f c))).length = g.length := by simp
    have hrlen : (row.set yi (f c)).length = row.length := by simp
    rw [gridGetCell, hlen, hxi, Option.some_bind, List.getElem?_set_self hxlt,
      Option.some_bind, hrlen, hyi, Option.some_bind, List.getElem?_set_self hylt]
  · rintro n ⟨hl, hr⟩
    refine ⟨by simp [hl], ?_⟩
    intro r hrmem
    rcases List.mem_or_eq_of_mem_set hrmem with hmem | heq
    · exact hr r hmem
    · have hrowlen := hr row (by
        obtain ⟨hh, hhe⟩ := List.getElem?_eq_some_iff.mp hrow
        exact hhe ▸ List.getElem_mem hh)
      rw [heq]; simp [hrowlen]

/-- A successful update was read-enabled. -/
lemma gridModifyCell_some_get {g : Grid} {p : Pos} {f : Cell → Cell} {g1 : Grid}
    (h : gridModifyCell g p f = some g1) :
    ∃ c, gridGetCell g p = some c := by
  rw [gridModifyCell] at h
  simp only [Option.bind_eq_some] at h
  obtain ⟨xi, hxi, row, hrow, yi, hyi, c, hc, hset⟩ := h
  refine ⟨c, ?_⟩
  rw [gridGetCell, hxi, Option.some_bind, hrow, Option.some_bind, hyi, Option.some_bind, hc]

/-- Main characterization of a successful update, stated from the update itself. -/
lemma gridModifyCell_some {g : Grid} {p : Pos} {f : Cell → Cell} {g1 : Grid}
    (h : gridModifyCell g p f = some g1) :
    ∃ c, gridGetCell g p = some c ∧
      gridGetCell g1 p = some (f c) ∧
      g1.length = g.length ∧
      (∀ n, okGrid n g → okGrid n g1) := by
  obtain ⟨c, hc⟩ := gridModifyCell_some_get h
  obtain ⟨g2, hg2, hget, hlen, hok⟩ := gridModify_of_get f hc
  rw [h] at hg2
  obtain rfl : g1 = g2 := by injection hg2
  exact ⟨c, hc, hget, hlen, hok⟩

/-- Frame rule for in-bounds updates on a well-formed grid: every other in-bounds
position reads unchanged. -/
lemma gridModifyCell_frame_inb {n : Nat} {g : Grid} {p : Pos} {f : Cell → Cell}
    {g1 : Grid} (hg : okGrid n g) (hp : inB n p)
    (h : gridModifyCell g p f = some g1) :
    ∀ q : Pos, inB n q → q ≠ p → gridGetCell g1 q = gridGetCell g q := by
  intro q hq hne
  obtain ⟨hlen, hrows⟩ := hg
  obtain ⟨hp1, hp2, hp3, hp4⟩ := hp
  obtain ⟨hq1, hq2, hq3, hq4⟩ := hq
  rw [gridModifyCell] at h
  simp only [Option.bind_eq_some] at h
  obtain ⟨xi, hxi, row, hrow, yi, hyi, c, hc, hset⟩ := h
  obtain rfl : g1 = g.set xi (row.set yi (f c)) := by
    injection hset with h1
    exact h1.symm
  have hxiv : xi = p.1.toNat := by
    rw [hlen, pyIdx_of_inb hp1 hp2] at hxi
    injection hxi with hx
    exact hx.symm
  have hrlenn : row.length = n := hrows row (by
    obtain ⟨hh, hhe⟩ := List.getElem?_eq_some_iff.mp hrow
    exact hhe ▸ List.getElem_mem hh)
  have hyiv : yi = p.2.toNat := by
    rw [hrlenn, pyIdx_of_inb hp3 hp4] at hyi
    injection hyi with hy
    exact hy.symm
  have hglen : (g.set xi (row.set yi (f c))).length = g.length := by simp
  have hqxi : pyIdx g.length q.1 = some q.1.toNat := by
    rw [hlen]; exact pyIdx_of_inb hq1 hq2
  by_cases hx : q.1.toNat = xi
  · have hq1p1 : q.1 = p.1 := by omega
    have hq2p2 : q.2 ≠ p.2 := fun hcon => hne (Prod.ext hq1p1 hcon)
    have hxlt : xi < g.length := (List.getElem?_eq_some_iff.mp hrow).1
    have hrlen : (row.set yi (f c)).length = row.length := by simp
    rw [gridGetCell, gridGetCell, hglen, hqxi, Option.some_bind, Option.some_bind, hx,
      List.getElem?_set_self hxlt, hrow, Option.some_bind, Option.some_bind, hrlen]
    rcases hyq : pyIdx row.length q.2 with _ | yq
    · rfl
    · have hyqv : yq = q.2.toNat := by
        rw [hrlenn, pyIdx_of_inb hq3 hq4] at hyq
        injection hyq with hy
        exact hy.symm
      have hyne : yi ≠ yq := by omega
      rw [Option.some_bind, Option.some_bind, List.getElem?_set_ne hyne]
  · rw [gridGetCell, gridGetCell, hglen, hqxi, Option.some_bind, Option.some_bind,
      List.getElem?_set_ne (fun hcon => hx hcon.symm)]

/-- The 3 by 3 configuration used by several concrete scenarios below, built
through the configuration calls themselves: start at (0, 0), goal at (2, 2),
no obstacles. -/
def cfg3 : Option SearchManager :=
  (set_start (init 3 3) (0, 0)).bind fun s => set_goal s (2, 2)

/-- Mid-run state for claim C1: one bfs step from cfg3 leaves the frontier holding
(0, 1) and (1, 0); then the user toggles the queued cell (0, 1) to OBSTACLE exactly
as the OBSTACLES edit mode of main.py does, by assigning its gridState. -/
def c1State : Option SearchManager :=
  cfg3.bind fun s => (bfs s).bind fun s1 =>
    (gridSetGridState s1.grid (0, 1) .OBSTACLE).map fun g => { s1 with grid := g }

/-- Claim C10: dispatching a search step with the Beam algorithm runs the beam
method, whose whole body is the statement pass, so the manager — grid, every
frontier structure and every run-state field — is returned untouched and no run
state can ever start or finish. -/
theorem c10_beam_noop (s : SearchManager) : search s .BEAM = some s := rfl

/-- Observations taken of the state after the C1 step: the grid state at the
toggled cell, the visited counter, the frontier, and the ancestor recorded at the
expanded neighbor (1, 1). -/
def c1Obs (s : SearchManager) : Option GridState × Nat × List Pos × Option (Option Pos) :=
  ((gridGetCell s.grid (0, 1)).map Cell.gridState, s.cells_visited,
   s.bfs_queue, (gridGetCell s.grid (1, 1)).map Cell.ancestor)

/-- Claim C1 (the code violates it): the next bfs step takes the toggled cell
(0, 1) from the frontier and, because explore_next recolors the taken cell CURRENT
before comparing its state to OBSTACLE, the stale-entry test can never fire in the
running branch: the obstacle cell is left marked CURRENT, counted as visited, and
its neighbors (0, 2) and (1, 1) are expanded with ancestor (0, 1), exactly what
the claim says must never happen. -/
theorem c1_stale_obstacle_explored :
    (c1State.bind bfs).map c1Obs =
      some (some GridState.CURRENT, 1, [(1, 0), (0, 2), (1, 1)], some (some (0, 1))) := by
  decide

/-- Claim C2 (the code violates it): after exactly one bfs step from cfg3,
last_explored equals start_pos, and reset_grid then replaces the cell at
last_explored by a fresh UNEXPLORED cell, erasing the START marking that the claim
(and the docstring of reset_grid) says is preserved.  The run-state fields and the
frontiers are indeed reset to their zero values. -/
theorem c2_reset_wipes_start_marking :
    ((cfg3.bind bfs).map fun s1 =>
        (gridGetCell s1.grid (0, 0)).map Cell.gridState) = some (some GridState.START) ∧
    ((cfg3.bind bfs).bind reset).map (fun s2 =>
        (gridGetCell s2.grid (0, 0)).map Cell.gridState) = some (some GridState.UNEXPLORED) ∧
    ((cfg3.bind bfs).bind reset).map (fun s2 =>
        ((s2.path_started, s2.finished, s2.last_explored, s2.cells_visited) :
          Bool × Bool × Option Pos × Nat)) = some (false, false, none, 0) ∧
    ((cfg3.bind bfs).bind reset).map (fun s2 =>
        (s2.bfs_queue, s2.dfs_stack, s2.a_star_queue)) = some ([], [], []) ∧
    ((cfg3.bind bfs).bind reset).map (fun s2 =>
        (s2.greedy_bfs_queue, s2.beam_queue)) = some ([], []) := by
  decide

/-- Claim C6 (the code violates it for negative coordinates): on the default
10 by 10 grid, set_goal with row -1 silently wraps to row 9 and marks (9, 0) GOAL
with no error, and set_start with column -3 wraps to column 7; a coordinate at or
past size is rejected (the indexing raises, modeled by none), which is the only
half of the claim the code honors. -/
theorem c6_set_negative_wraps :
    ((set_goal (init 10 3) (-1, 0)).map fun s =>
        ((s.goal_pos, (gridGetCell s.grid (9, 0)).map Cell.gridState) :
          Option Pos × Option GridState)) =
      some (some (-1, 0), some GridState.GOAL) ∧
    set_goal (init 10 3) (10, 0) = none ∧
    ((set_start (init 10 3) (0, -3)).map fun s =>
        (gridGetCell s.grid (0, 7)).map Cell.gridState) = some (some GridState.START) := by
  decide

/-- A 2 by 2 manager whose ancestor chain from (0, 1) is the two-cycle
(0, 1) -> (1, 1) -> (0, 1), with start (0, 0): a corrupted back-reference graph of
the kind the spec says the walks must survive.  last_explored is (0, 1), so
colorPath starts its walk at the ancestor (1, 1). -/
def cycS : SearchManager where
  size := 2
  grid := [[{ gridState := .START }, { gridState := .CURRENT, ancestor := some (1, 1) }],
           [{ gridState := .UNEXPLORED }, { gridState := .SEEN, ancestor := some (0, 1) }]]
  bfs_queue := []
  dfs_stack := []
  a_star_queue := []
  greedy_bfs_queue := []
  beam_size := 3
  beam_queue := []
  goal_pos := some (1, 0)
  start_pos := some (0, 0)
  path_started := true
  last_explored := some (0, 1)
  finished := false
  cells_visited := 2

/-- The grid of cycS after colorPath has marked both cells of the cycle PATH:
from here on the walk keeps rewriting PATH over PATH, so the grid reproduces
itself and the walk revisits (1, 1) and (0, 1) forever. -/
def cycMarked : Grid :=
  [[{ gridState := .START }, { gridState := .PATH, ancestor := some (1, 1) }],
   [{ gridState := .UNEXPLORED }, { gridState := .PATH, ancestor := some (0, 1) }]]

lemma cyc_pathLength_spin :
    ∀ fuel count, pathLengthF cycS fuel (some (0, 1)) count = .spin ∧
      pathLengthF cycS fuel (some (1, 1)) count = .spin := by
  intro fuel
  induction fuel with
  | zero => intro count; exact ⟨rfl, rfl⟩
  | succ n ih =>
    intro count
    refine ⟨?_, ?_⟩
    · have h1 : pathLengthF cycS (n + 1) (some (0, 1)) count =
          pathLengthF cycS n (some (1, 1)) (count + 1) := by rfl
      rw [h1]
      exact (ih (count + 1)).2
    · have h2 : pathLengthF cycS (n + 1) (some (1, 1)) count =
          pathLengthF cycS n (some (0, 1)) (count + 1) := by rfl
      rw [h2]
      exact (ih (count + 1)).1

lemma cyc_colorWalk_marked_spin :
    ∀ fuel, colorWalkF (some (0, 0)) fuel cycMarked (some (1, 1)) = .spin ∧
      colorWalkF (some (0, 0)) fuel cycMarked (some (0, 1)) = .spin := by
  intro fuel
  induction fuel with
  | zero => exact ⟨rfl, rfl⟩
  | succ n ih =>
    refine ⟨?_, ?_⟩
    · have h1 : colorWalkF (some (0, 0)) (n + 1) cycMarked (some (1, 1)) =
          colorWalkF (some (0, 0)) n cycMarked (some (0, 1)) := by rfl
      rw [h1]
      exact ih.2
    · have h2 : colorWalkF (some (0, 0)) (n + 1) cycMarked (some (0, 1)) =
          colorWalkF (some (0, 0)) n cycMarked (some (1, 1)) := by rfl
      rw [h2]
      exact ih.1

lemma cyc_colorWalk_spin :
    ∀ fuel, colorWalkF (some (0, 0)) fuel cycS.grid (some (1, 1)) = .spin := by
  intro fuel
  match fuel with
  | 0 => rfl
  | 1 => rfl
  | n + 2 =>
    have h1 : colorWalkF (some (0, 0)) (n + 2) cycS.grid (some (1, 1)) =
        colorWalkF (some (0, 0)) n cycMarked (some (1, 1)) := by rfl
    rw [h1]
    exact (cyc_colorWalk_marked_spin n).1

/-- Counterexample to claim C5 at the explicit state cycS: at fuel equal to the
grid cell count, 2 * 2, both walks are still running, and so are they at fuel
1000, far past the bound the claim asserts; the source-level pathLength and
colorPath therefore neither terminate nor report any corruption error on this
input, and for a dangling chain (the ancestor of (1, 0) is None) the walk raises
an unpacking error instead of a corruption error. -/
theorem c5_walk_unbounded_counterexample :
    pathLengthF cycS (2 * 2) (some (0, 1)) 0 = .spin ∧
    pathLengthF cycS 1000 (some (0, 1)) 0 = .spin ∧
    pathLength cycS (some (0, 1)) = .spin ∧
    colorWalkF (some (0, 0)) 1000 cycS.grid (some (1, 1)) = .spin ∧
    colorPath cycS = .spin ∧
    pathLength cycS (some (1, 0)) = .exn := by
  refine ⟨(cyc_pathLength_spin (2 * 2) 0).1, (cyc_pathLength_spin 1000 0).1,
    (cyc_pathLength_spin (plFuel cycS) 0).1, cyc_colorWalk_spin 1000, ?_, by decide⟩
  have h : colorPath cycS = colorWalkF (some (0, 0)) (plFuel cycS) cycS.grid (some (1, 1)) := rfl
  rw [h]
  exact cyc_colorWalk_spin (plFuel cycS)

/-- Claim C5 amended: the ancestor-chain walks of colorPath and pathLength carry
no iteration bound and no corruption reporting; on the cyclic chain of cycS both
walks are still running at every fuel, i.e. the Python loops never terminate, and
a dangling (None) ancestor makes pathLength raise an unpacking error.  The walks
terminate only when the chain itself reaches start_pos. -/
theorem c5_amended_walks_unbounded :
    (∀ fuel count, pathLengthF cycS fuel (some (0, 1)) count = .spin) ∧
    (∀ fuel, colorWalkF (some (0, 0)) fuel cycS.grid (some (1, 1)) = .spin) ∧
    pathLength cycS (some (1, 0)) = .exn := by
  exact ⟨fun fuel count => (cyc_pathLength_spin fuel count).1, cyc_colorWalk_spin, by decide⟩

/-- Emptiness of the frontier structure the selected strategy reads: each
strategy of search.py hands its own queue to search_impl, and beam takes no
step at all, so its condition is vacuous. -/
def frontierEmpty (algo : Algorithm) (s : SearchManager) : Prop :=
  match algo with
  | .BFS => s.bfs_queue = []
  | .DFS => s.dfs_stack = []
  | .GREEDY_BFS => s.greedy_bfs_queue = []
  | .A_STAR => s.a_star_queue = []
  | .BEAM => True

instance (algo : Algorithm) (s : SearchManager) : Decidable (frontierEmpty algo s) := by
  unfold frontierEmpty
  cases algo <;> infer_instance

/-- A running state whose active frontier has been exhausted: the search has
started, is not finished, the frontier of the selected strategy is empty, and
the last explored position is an in-bounds cell of a well-formed grid. -/
def Exhausted (algo : Algorithm) (s : SearchManager) : Prop :=
  WF s ∧ s.path_started = true ∧ s.finished = false ∧ frontierEmpty algo s ∧
    ∃ le, s.last_explored = some le ∧ inB s.size le

lemma unsetLastSeen_of_eq {s : SearchManager} (h : s.last_explored = s.start_pos) :
    unsetLastSeen s = some s := by
  rw [unsetLastSeen, if_neg (by simp [h])]

lemma unsetLastSeen_of_ne {s : SearchManager} {le : Pos} {g : Grid}
    (hne : s.last_explored ≠ s.start_pos) (hle : s.last_explored = some le)
    (hset : gridSetGridState s.grid le .SEEN = some g) :
    unsetLastSeen s = some { s with grid := g } := by
  rw [unsetLastSeen, if_pos hne]
  simp only [hle, hset]
  rfl

lemma exploreNextF_succ_running {ops : FrontierOps} {fuel : Nat} {s : SearchManager}
    (hf : s.finished = false) (hps : s.path_started = true) :
    exploreNextF ops (fuel + 1) s = exploreRunning ops (exploreNextF ops fuel) s := by
  rw [exploreNextF]
  simp [hf, hps]

lemma exploreRunning_stop {ops : FrontierOps}
    {k : SearchManager → Option (Bool × SearchManager × Nat)} {s s1 : SearchManager}
    (hu : unsetLastSeen s = some s1) (h0 : ops.flen s1 < 1) :
    exploreRunning ops k s = some (false, s1, 0) := by
  simp only [exploreRunning, hu]
  rw [if_pos h0]

lemma search_impl_stop {ops : FrontierOps} {s s1 : SearchManager}
    (hf : s.finished = false) (hps : s.path_started = true)
    (hu : unsetLastSeen s = some s1) (h0 : ops.flen s1 < 1) :
    search_impl ops s = some s1 := by
  rw [search_impl]
  have h1 : ops.flen s + 2 = (ops.flen s + 1) + 1 := rfl
  rw [h1, exploreNextF_succ_running hf hps, exploreRunning_stop hu h0]
  simp

/-- One search_impl step of any frontier discipline on a running state whose
frontier length is zero: the step stops before taking anything, touching at
most the color of the previously explored cell, and leaves every queue, the
counters and last_explored unchanged. -/
lemma exhausted_step_impl {ops : FrontierOps} {s : SearchManager} {le : Pos}
    (hfl : ∀ g : Grid, ops.flen { s with grid := g } = ops.flen s)
    (hWF : WF s) (hps : s.path_started = true) (hf : s.finished = false)
    (h0 : ops.flen s < 1) (hle : s.last_explored = some le)
    (hinb : inB s.size le) :
    ∃ s1, search_impl ops s = some s1 ∧ WF s1 ∧
      s1.path_started = true ∧ s1.finished = false ∧
      s1.bfs_queue = s.bfs_queue ∧ s1.dfs_stack = s.dfs_stack ∧
      s1.greedy_bfs_queue = s.greedy_bfs_queue ∧ s1.a_star_queue = s.a_star_queue ∧
      s1.cells_visited = s.cells_visited ∧ s1.last_explored = s.last_explored ∧
      s1.size = s.size := by
  by_cases hls : s.last_explored = s.start_pos
  · exact ⟨s, search_impl_stop hf hps (unsetLastSeen_of_eq hls) h0, hWF, hps, hf,
      rfl, rfl, rfl, rfl, rfl, rfl, rfl⟩
  · obtain ⟨c, hc⟩ := gridGetCell_inb hWF hinb
    obtain ⟨g1, hset, hget1, hlen1, hok⟩ :=
      gridModify_of_get (fun cc => { cc with gridState := .SEEN }) hc
    have hset2 : gridSetGridState s.grid le .SEEN = some g1 := hset
    have h01 : ops.flen { s with grid := g1 } < 1 := by
      rw [hfl g1]
      exact h0
    exact ⟨{ s with grid := g1 },
      search_impl_stop hf hps (unsetLastSeen_of_ne hls hle hset2) h01,
      ⟨(hok s.size hWF).1, (hok s.size hWF).2⟩, hps, hf,
      rfl, rfl, rfl, rfl, rfl, rfl, rfl⟩

/-- One search step of the selected algorithm on an exhausted running state:
no exception, nothing explored, every frontier queue unchanged, and the
exhausted situation persists. -/
lemma exhausted_step {algo : Algorithm} {s : SearchManager}
    (h : Exhausted algo s) :
    ∃ s1, search s algo = some s1 ∧ Exhausted algo s1 ∧
      s1.cells_visited = s.cells_visited ∧ s1.last_explored = s.last_explored ∧
      s1.size = s.size ∧ s1.bfs_queue = s.bfs_queue ∧ s1.dfs_stack = s.dfs_stack ∧
      s1.greedy_bfs_queue = s.greedy_bfs_queue ∧
      s1.a_star_queue = s.a_star_queue := by
  obtain ⟨hWF, hps, hf, hq, le, hle, hinb⟩ := h
  cases algo with
  | BEAM =>
    exact ⟨s, rfl, ⟨hWF, hps, hf, trivial, le, hle, hinb⟩, rfl, rfl, rfl, rfl,
      rfl, rfl, rfl⟩
  | BFS =>
    have hqb : s.bfs_queue = [] := hq
    have h0 : bfsOps.flen s < 1 := by
      show s.bfs_queue.length < 1
      simp [hqb]
    obtain ⟨s1, himpl, hWF1, hps1, hf1, hb1, hd1, hg1, ha1, hcv1, hle1, hsz1⟩ :=
      exhausted_step_impl (fun g => rfl) hWF hps hf h0 hle hinb
    refine ⟨s1, himpl, ⟨hWF1, hps1, hf1, ?_, le, by rw [hle1]; exact hle,
      by rw [hsz1]; exact hinb⟩, hcv1, hle1, hsz1, hb1, hd1, hg1, ha1⟩
    show s1.bfs_queue = []
    rw [hb1]
    exact hqb
  | DFS =>
    have hqb : s.dfs_stack = [] := hq
    have h0 : dfsOps.flen s < 1 := by
      show s.dfs_stack.length < 1
      simp [hqb]
    obtain ⟨s1, himpl, hWF1, hps1, hf1, hb1, hd1, hg1, ha1, hcv1, hle1, hsz1⟩ :=
      exhausted_step_impl (fun g => rfl) hWF hps hf h0 hle hinb
    refine ⟨s1, himpl, ⟨hWF1, hps1, hf1, ?_, le, by rw [hle1]; exact hle,
      by rw [hsz1]; exact hinb⟩, hcv1, hle1, hsz1, hb1, hd1, hg1, ha1⟩
    show s1.dfs_stack = []
    rw [hd1]
    exact hqb
  | GREEDY_BFS =>
    have hqb : s.greedy_bfs_queue = [] := hq
    have h0 : greedyOps.flen s < 1 := by
      show s.greedy_bfs_queue.length < 1
      simp [hqb]
    obtain ⟨s1, himpl, hWF1, hps1, hf1, hb1, hd1, hg1, ha1, hcv1, hle1, hsz1⟩ :=
      exhausted_step_impl (fun g => rfl) hWF hps hf h0 hle hinb
    refine ⟨s1, himpl, ⟨hWF1, hps1, hf1, ?_, le, by rw [hle1]; exact hle,
      by rw [hsz1]; exact hinb⟩, hcv1, hle1, hsz1, hb1, hd1, hg1, ha1⟩
    show s1.greedy_bfs_queue = []
    rw [hg1]
    exact hqb
  | A_STAR =>
    have hqb : s.a_star_queue = [] := hq
    have h0 : aStarOps.flen s < 1 := by
      show s.a_star_queue.length < 1
      simp [hqb]
    obtain ⟨s1, himpl, hWF1, hps1, hf1, hb1, hd1, hg1, ha1, hcv1, hle1, hsz1⟩ :=
      exhausted_step_impl (fun g => rfl) hWF hps hf h0 hle hinb
    refine ⟨s1, himpl, ⟨hWF1, hps1, hf1, ?_, le, by rw [hle1]; exact hle,
      by rw [hsz1]; exact hinb⟩, hcv1, hle1, hsz1, hb1, hd1, hg1, ha1⟩
    show s1.a_star_queue = []
    rw [ha1]
    exact hqb

/-- The exhausted situation is terminal under every strategy: however many
run-to-completion iterations follow, the state stays exhausted. -/
lemma exhausted_runLoop {algo : Algorithm} {s : SearchManager}
    (h : Exhausted algo s) :
    ∀ f, ∃ s1, runLoopAux algo f s = some s1 ∧ Exhausted algo s1 := by
  intro f
  induction f generalizing s with
  | zero => exact ⟨s, rfl, h⟩
  | succ k ih =>
    obtain ⟨s2, hstep, h2, _, _, _, _, _, _, _⟩ := exhausted_step h
    obtain ⟨s1, hloop, h1⟩ := ih h2
    refine ⟨s1, ?_, h1⟩
    rw [runLoopAux]
    rw [if_neg (by simp [h.2.2.1])]
    simp only [hstep]
    rw [if_neg (by simp [h2.2.1])]
    exact hloop

/-- Claim C3: under every strategy, a step taken in a running state (path
started, not finished) with the active frontier empty raises no exception and
explores nothing: the step returns with the finished flag still false, every
frontier queue unchanged (in particular the active one still empty), the
visited counter and last-explored cell untouched (only the demotion of the
CURRENT cell to SEEN may touch the grid, exactly as the spec orders the step).
This exhausted situation is terminal: however many further steps the
run-to-completion loop takes, the state stays unfinished, and the metrics the
loop then assembles report goal_reached as false (and path length 0), the
expected unreachable-goal outcome distinct from FOUND. -/
theorem c3_empty_frontier_exhausts {algo : Algorithm} {s : SearchManager} {le : Pos}
    (hWF : WF s) (hps : s.path_started = true) (hf : s.finished = false)
    (hq : frontierEmpty algo s) (hle : s.last_explored = some le)
    (hinb : inB s.size le) :
    (∃ s1, search s algo = some s1 ∧ s1.finished = false ∧
      frontierEmpty algo s1 ∧ s1.bfs_queue = s.bfs_queue ∧
      s1.dfs_stack = s.dfs_stack ∧ s1.greedy_bfs_queue = s.greedy_bfs_queue ∧
      s1.a_star_queue = s.a_star_queue ∧
      s1.cells_visited = s.cells_visited ∧ s1.last_explored = s.last_explored) ∧
    (∀ f, ∃ m, runLoopMetrics algo f s = some m ∧ m.goal_reached = false ∧
      m.path_length = 0) := by
  have h : Exhausted algo s := ⟨hWF, hps, hf, hq, le, hle, hinb⟩
  constructor
  · obtain ⟨s1, hstep, h1, hcv, hlast, hsz, hb, hd, hg, ha⟩ := exhausted_step h
    exact ⟨s1, hstep, h1.2.2.1, h1.2.2.2.1, hb, hd, hg, ha, hcv, hlast⟩
  · intro f
    obtain ⟨s1, hloop, h1⟩ := exhausted_runLoop h f
    refine ⟨⟨algo.value, s1.cells_visited, 0, s1.finished⟩, ?_, ?_, rfl⟩
    · simp only [runLoopMetrics, hloop]
      rw [if_neg (by simp [h1.2.2.1])]
    · exact h1.2.2.1

/-- The exhausted state reached by one real bfs step on a 2 by 2 grid whose goal
is sealed off by obstacles: the start neighbors are all obstacles, so the first
step starts the run and adds nothing to the frontier. -/
def c3W : SearchManager where
  size := 2
  grid := [[{ gridState := .START }, { gridState := .OBSTACLE }],
           [{ gridState := .OBSTACLE }, { gridState := .GOAL }]]
  bfs_queue := []
  dfs_stack := []
  a_star_queue := []
  greedy_bfs_queue := []
  beam_size := 3
  beam_queue := []
  goal_pos := some (1, 1)
  start_pos := some (0, 0)
  path_started := true
  last_explored := some (0, 0)
  finished := false
  cells_visited := 0

theorem c3_empty_frontier_exhausts_witness :
    (runLoopMetrics .BFS 8 c3W).map Metrics.goal_reached = some false ∧
    (runLoopMetrics .DFS 8 c3W).map Metrics.goal_reached = some false ∧
    (runLoopMetrics .GREEDY_BFS 8 c3W).map Metrics.goal_reached = some false ∧
    (runLoopMetrics .A_STAR 8 c3W).map Metrics.goal_reached = some false ∧
    (runLoopMetrics .BEAM 8 c3W).map Metrics.goal_reached = some false := by
  refine ⟨?_, ?_, ?_, ?_, ?_⟩
  · obtain ⟨m, hm, hg, _⟩ :=
      (@c3_empty_frontier_exhausts Algorithm.BFS c3W (0, 0) (by decide) (by decide)
        (by decide) (by decide) (by decide) (by decide)).2 8
    rw [hm]
    simp [hg]
  · obtain ⟨m, hm, hg, _⟩ :=
      (@c3_empty_frontier_exhausts Algorithm.DFS c3W (0, 0) (by decide) (by decide)
        (by decide) (by decide) (by decide) (by decide)).2 8
    rw [hm]
    simp [hg]
  · obtain ⟨m, hm, hg, _⟩ :=
      (@c3_empty_frontier_exhausts Algorithm.GREEDY_BFS c3W (0, 0) (by decide)
        (by decide) (by decide) (by decide) (by decide) (by decide)).2 8
    rw [hm]
    simp [hg]
  · obtain ⟨m, hm, hg, _⟩ :=
      (@c3_empty_frontier_exhausts Algorithm.A_STAR c3W (0, 0) (by decide)
        (by decide) (by decide) (by decide) (by decide) (by decide)).2 8
    rw [hm]
    simp [hg]
  · obtain ⟨m, hm, hg, _⟩ :=
      (@c3_empty_frontier_exhausts Algorithm.BEAM c3W (0, 0) (by decide) (by decide)
        (by decide) (by decide) (by decide) (by decide)).2 8
    rw [hm]
    simp [hg]

lemma exploreNextF_succ_finished {ops : FrontierOps} {fuel : Nat} {s : SearchManager}
    (hf : s.finished = true) :
    exploreNextF ops (fuel + 1) s = some (false, s, 0) := by
  rw [exploreNextF]
  simp [hf]

lemma exploreNextF_succ_notStarted {ops : FrontierOps} {fuel : Nat} {s : SearchManager}
    (hf : s.finished = false) (hps : s.path_started = false) :
    exploreNextF ops (fuel + 1) s = exploreStart (exploreNextF ops fuel) s := by
  rw [exploreNextF]
  simp [hf, hps]

lemma unsetLastSeen_cases {s t : SearchManager} (h : unsetLastSeen s = some t) :
    t = s ∨ ∃ g, t = { s with grid := g } := by
  rw [unsetLastSeen] at h
  split at h
  · split at h
    · exact absurd h (by simp)
    · rcases hset : gridSetGridState s.grid _ .SEEN with _ | g
      · rw [hset] at h
        exact absurd h (by simp)
      · rw [hset] at h
        simp only [Option.map_some'] at h
        right
        exact ⟨g, by injection h with hh; exact hh.symm⟩
  · left
    injection h with hh
    exact hh.symm

lemma markCurrent_some {s2 : SearchManager} {nxt : Pos} {s3 : SearchManager}
    (h : markCurrent s2 nxt = some s3) :
    (∃ c0 : Cell, gridGetCell s3.grid nxt = some { c0 with gridState := .CURRENT }) ∧
    s3.last_explored = some nxt ∧ s3.cells_visited = s2.cells_visited + 1 := by
  rw [markCurrent] at h
  rcases hset : gridSetGridState s2.grid nxt .CURRENT with _ | g
  · rw [hset] at h
    exact absurd h (by simp)
  · rw [hset] at h
    simp only [Option.map_some', Option.some.injEq] at h
    obtain ⟨c0, hc0, hget, _, _⟩ := gridModifyCell_some hset
    subst h
    exact ⟨⟨c0, hget⟩, rfl, rfl⟩

/-- The stale-obstacle retry of explore_next can never run in the running branch:
the taken cell was just recolored CURRENT, so the OBSTACLE test is false whatever
the state, and the branch result does not depend on the retry continuation. -/
lemma exploreRunning_k_irrelevant (ops : FrontierOps)
    (k1 k2 : SearchManager → Option (Bool × SearchManager × Nat)) (s : SearchManager) :
    exploreRunning ops k1 s = exploreRunning ops k2 s := by
  rcases hu : unsetLastSeen s with _ | s1
  · simp only [exploreRunning, hu]
  · simp only [exploreRunning, hu]
    by_cases h0 : ops.flen s1 < 1
    · rw [if_pos h0, if_pos h0]
    · rw [if_neg h0, if_neg h0]
      rcases hgn : ops.getNext s1 with _ | pr
      · simp only [hgn]
      · obtain ⟨nxt, s2⟩ := pr
        simp only [hgn]
        rcases hmc : markCurrent s2 nxt with _ | s3
        · simp only [hmc]
        · simp only [hmc]
          by_cases hgoal : s3.last_explored = s3.goal_pos
          · rw [if_pos hgoal, if_pos hgoal]
          · rw [if_neg hgoal, if_neg hgoal]
            obtain ⟨⟨c0, hget⟩, _, _⟩ := markCurrent_some hmc
            simp only [hget]
            rw [if_neg (by simp), if_neg (by simp)]

lemma exploreNextF_one {ops : FrontierOps} {fuel : Nat} {s : SearchManager}
    (hps : s.path_started = true) (h1 : 1 ≤ fuel) :
    exploreNextF ops fuel s = exploreNextF ops 1 s := by
  obtain ⟨k, rfl⟩ : ∃ k, fuel = k + 1 := ⟨fuel - 1, by omega⟩
  by_cases hf : s.finished = true
  · rw [exploreNextF_succ_finished hf]
    have hb : exploreNextF ops 1 s = some (false, s, 0) :=
      @exploreNextF_succ_finished ops 0 s hf
    rw [hb]
  · have hfb : s.finished = false := by simpa using hf
    rw [exploreNextF_succ_running hfb hps]
    have hb : exploreNextF ops 1 s = exploreRunning ops (exploreNextF ops 0) s :=
      @exploreNextF_succ_running ops 0 s hfb hps
    rw [hb]
    exact exploreRunning_k_irrelevant ops _ _ s

/-- The start branch calls the retry continuation only on the started state, so
continuations agreeing there give the same result. -/
lemma exploreStart_congr {k1 k2 : SearchManager → Option (Bool × SearchManager × Nat)}
    {s : SearchManager}
    (h : k1 { s with last_explored := s.start_pos, path_started := true } =
      k2 { s with last_explored := s.start_pos, path_started := true }) :
    exploreStart k1 s = exploreStart k2 s := by
  rw [exploreStart, exploreStart]
  rcases hsp : s.start_pos with _ | p
  · simp only [hsp]
  · simp only [hsp]
    split
    · rfl
    · split
      · simp only [hsp] at h
        exact h
      · rfl

/-- Fuel stabilization: two units of fuel decide explore_next on every state, so
the self-recursion of the stale-entry skip never goes deeper than one nested
activation, however many queued entries have become obstacles. -/
lemma exploreNextF_two {ops : FrontierOps} {fuel : Nat} {s : SearchManager}
    (h2 : 2 ≤ fuel) :
    exploreNextF ops fuel s = exploreNextF ops 2 s := by
  obtain ⟨k, rfl⟩ : ∃ k, fuel = k + 1 := ⟨fuel - 1, by omega⟩
  have hk1 : 1 ≤ k := by omega
  by_cases hf : s.finished = true
  · rw [exploreNextF_succ_finished hf]
    have hb : exploreNextF ops 2 s = some (false, s, 0) :=
      @exploreNextF_succ_finished ops 1 s hf
    rw [hb]
  · have hfb : s.finished = false := by simpa using hf
    by_cases hps : s.path_started = false
    · rw [exploreNextF_succ_notStarted hfb hps]
      have hb : exploreNextF ops 2 s = exploreStart (exploreNextF ops 1) s :=
        @exploreNextF_succ_notStarted ops 1 s hfb hps
      rw [hb]
      exact exploreStart_congr (exploreNextF_one rfl hk1)
    · have hpst : s.path_started = true := by simpa using hps
      rw [exploreNextF_succ_running hfb hpst]
      have hb : exploreNextF ops 2 s = exploreRunning ops (exploreNextF ops 1) s :=
        @exploreNextF_succ_running ops 1 s hfb hpst
      rw [hb]
      exact exploreRunning_k_irrelevant ops _ _ s

/-- Insensitivity of a frontier length function to the non-frontier fields of the
state; every strategy of search.py measures only its own queue, so its flen
satisfies this by rfl. -/
def FlenStable (flen : SearchManager → Nat) : Prop :=
  ∀ (t : SearchManager) (g : Grid) (le : Option Pos) (ps : Bool) (cv : Nat),
    flen { t with grid := g, last_explored := le, path_started := ps,
                  cells_visited := cv } = flen t

lemma exploreRunning_count {ops : FrontierOps}
    {k : SearchManager → Option (Bool × SearchManager × Nat)}
    {s s1 : SearchManager} {b : Bool} {n : Nat}
    (hfl : FlenStable ops.flen)
    (h : exploreRunning ops k s = some (b, s1, n)) : n ≤ ops.flen s := by
  rcases hu : unsetLastSeen s with _ | t
  · rw [exploreRunning, hu] at h
    exact absurd h (by simp)
  · have hflt : ops.flen t = ops.flen s := by
      rcases unsetLastSeen_cases hu with rfl | ⟨g, rfl⟩
      · rfl
      · exact hfl s g s.last_explored s.path_started s.cells_visited
    simp only [exploreRunning, hu] at h
    by_cases h0 : ops.flen t < 1
    · rw [if_pos h0] at h
      injection h with h1
      obtain ⟨rfl, rfl, rfl⟩ : b = false ∧ s1 = t ∧ n = 0 := by
        refine ⟨?_, ?_, ?_⟩ <;> injection h1 with ha hb <;> try exact ha.symm
        · injection hb with hc hd
          exact hc.symm
        · injection hb with hc hd
          exact hd.symm
      omega
    · have h1le : 1 ≤ ops.flen s := by omega
      rw [if_neg h0] at h
      rcases hgn : ops.getNext t with _ | pr
      · rw [hgn] at h
        exact absurd h (by simp)
      · obtain ⟨nxt, s2⟩ := pr
        simp only [hgn] at h
        rcases hmc : markCurrent s2 nxt with _ | s3
        · rw [hmc] at h
          exact absurd h (by simp)
        · simp only [hmc] at h
          by_cases hgoal : s3.last_explored = s3.goal_pos
          · rw [if_pos hgoal] at h
            rcases hcp : colorPath s3 with g2 | _ | _ <;> rw [hcp] at h
            · injection h with h1
              have hn : n = 1 := by
                injection h1 with ha hb
                injection hb with hc hd
                exact hd.symm
              omega
            · exact absurd h (by simp)
            · exact absurd h (by simp)
          · rw [if_neg hgoal] at h
            obtain ⟨⟨c0, hget⟩, _, _⟩ := markCurrent_some hmc
            simp only [hget] at h
            rw [if_neg (by simp)] at h
            injection h with h1
            have hn : n = 1 := by
              injection h1 with ha hb
              injection hb with hc hd
              exact hd.symm
            omega

lemma exploreNextF_two_count {ops : FrontierOps} {s s1 : SearchManager} {b : Bool}
    {n : Nat} (hfl : FlenStable ops.flen)
    (h : exploreNextF ops 2 s = some (b, s1, n)) : n ≤ ops.flen s := by
  by_cases hf : s.finished = true
  · have hb : exploreNextF ops 2 s = some (false, s, 0) :=
      @exploreNextF_succ_finished ops 1 s hf
    rw [hb] at h
    have hn : n = 0 := by
      injection h with h1
      injection h1 with ha hbb
      injection hbb with hc hd
      exact hd.symm
    omega
  · have hfb : s.finished = false := by simpa using hf
    by_cases hps : s.path_started = false
    · have hb : exploreNextF ops 2 s = exploreStart (exploreNextF ops 1) s :=
        @exploreNextF_succ_notStarted ops 1 s hfb hps
      rw [hb] at h
      rw [exploreStart] at h
      rcases hsp : s.start_pos with _ | p
      · rw [hsp] at h
        simp only [] at h
        exact absurd h (by simp)
      · rw [hsp] at h
        simp only [] at h
        rcases hgc : gridGetCell s.grid p with _ | c
        · rw [hgc] at h
          exact absurd h (by simp)
        · rw [hgc] at h
          simp only [] at h
          by_cases hob : c.gridState = .OBSTACLE
          · rw [if_pos hob] at h
            have hb1 : exploreNextF ops 1
                { s with last_explored := s.start_pos, path_started := true } =
                exploreRunning ops (exploreNextF ops 0)
                  { s with last_explored := s.start_pos, path_started := true } :=
              @exploreNextF_succ_running ops 0
                { s with last_explored := s.start_pos, path_started := true } hfb rfl
            rw [hsp] at hb1
            rw [hb1] at h
            have hcount := exploreRunning_count hfl h
            rw [← hsp] at hcount
            exact hcount.trans (le_of_eq (hfl s s.grid s.start_pos true s.cells_visited))
          · rw [if_neg hob] at h
            have hn : n = 0 := by
              injection h with h1
              injection h1 with ha hbb
              injection hbb with hc hd
              exact hd.symm
            omega
    · have hpst : s.path_started = true := by simpa using hps
      have hb : exploreNextF ops 2 s = exploreRunning ops (exploreNextF ops 1) s :=
        @exploreNextF_succ_running ops 1 s hfb hpst
      rw [hb] at h
      exact exploreRunning_count hfl h

/-- Claim C7: a single explore_next call always terminates, and its take-next
repetitions are bounded by the frontier size at the start of the step.  Formally:
for every frontier discipline whose length function reads only its own queue
(FlenStable, satisfied by rfl for all four strategies of search.py), the fueled
embedding of the recursive explore_next is already stable at two units of fuel —
the stale-entry self-recursion never needs a deeper nesting, because a cell taken
from the frontier is recolored CURRENT before the OBSTACLE test, so the retry can
refire at most once (from the not-yet-started branch) — and whenever the call
returns, the number of take-next invocations it made is at most the frontier
length at entry. -/
theorem c7_step_terminates_bounded (ops : FrontierOps) (s : SearchManager)
    (fuel : Nat) (hfl : FlenStable ops.flen) (hfuel : 2 ≤ fuel) :
    exploreNextF ops fuel s = exploreNextF ops 2 s ∧
    (∀ (b : Bool) (s1 : SearchManager) (n : Nat),
      exploreNextF ops fuel s = some (b, s1, n) → n ≤ ops.flen s) := by
  refine ⟨exploreNextF_two hfuel, ?_⟩
  intro b s1 n h
  rw [exploreNextF_two hfuel] at h
  exact exploreNextF_two_count hfl h

/-- A running 3 by 3 state in which every queued frontier entry has since been
toggled to OBSTACLE: three stale entries at once. -/
def c7W : SearchManager where
  size := 3
  grid := [[{ gridState := .START }, { gridState := .OBSTACLE },
            { gridState := .UNEXPLORED }],
           [{ gridState := .OBSTACLE }, { gridState := .OBSTACLE },
            { gridState := .UNEXPLORED }],
           [{ gridState := .UNEXPLORED }, { gridState := .UNEXPLORED },
            { gridState := .GOAL }]]
  bfs_queue := [(0, 1), (1, 0), (1, 1)]
  dfs_stack := []
  a_star_queue := []
  greedy_bfs_queue := []
  beam_size := 3
  beam_queue := []
  goal_pos := some (2, 2)
  start_pos := some (0, 0)
  path_started := true
  last_explored := some (0, 0)
  finished := false
  cells_visited := 0

theorem c7_step_terminates_bounded_witness :
    exploreNextF bfsOps 50 c7W = exploreNextF bfsOps 2 c7W ∧
    (exploreNextF bfsOps 50 c7W).map
        (fun r => decide (r.2.2 ≤ bfsOps.flen c7W)) = some true := by
  have h := c7_step_terminates_bounded bfsOps c7W 50
    (fun t g le ps cv => rfl) (by norm_num)
  refine ⟨h.1, ?_⟩
  rcases hval : exploreNextF bfsOps 50 c7W with _ | r
  · rw [h.1] at hval
    exact absurd hval (by decide)
  · obtain ⟨b, s1, n⟩ := r
    have hle := h.2 b s1 n hval
    simp [hle]

lemma heap_isIn_false (s : SearchManager) (current : Pos) :
    aStarOps.isIn s current = false := by
  show s.a_star_queue.any (fun e => heapEntryEqPos e current) = false
  simp [heapEntryEqPos]

lemma greedy_isIn_false (s : SearchManager) (current : Pos) :
    greedyOps.isIn s current = false := by
  show s.greedy_bfs_queue.any (fun e => heapEntryEqPos e current) = false
  simp [heapEntryEqPos]

/-- Behavior of one add_neighbors iteration with the A* closures on an in-bounds
UNEXPLORED or GOAL neighbor: the membership scan never fires (heap entries never
compare equal to a position), so the entry with key (heuristic radicand, path cost
of the discoverer) is pushed and the ancestor of the neighbor is rewritten to
last_explored. -/
lemma addNeighborsFor_astar_push {s : SearchManager} {xy : Pos} {off : Int × Int}
    {c : Cell} {h cost : Nat}
    (hinb : inB s.size (xy.1 + off.1, xy.2 + off.2))
    (hget : gridGetCell s.grid (xy.1 + off.1, xy.2 + off.2) = some c)
    (hst : c.gridState = .UNEXPLORED ∨ c.gridState = .GOAL)
    (hh : heuristicSq s (xy.1 + off.1, xy.2 + off.2) = some h)
    (hpl : pathLength s s.last_explored = .ret cost) :
    ∃ s1, addNeighborsFor aStarOps xy s off = some s1 ∧
      s1.a_star_queue = s.a_star_queue ++ [((h, cost), (xy.1 + off.1, xy.2 + off.2))] ∧
      gridGetCell s1.grid (xy.1 + off.1, xy.2 + off.2) =
        some { c with ancestor := s.last_explored } ∧
      s1.last_explored = s.last_explored ∧
      s1.bfs_queue = s.bfs_queue ∧ s1.dfs_stack = s.dfs_stack ∧
      s1.greedy_bfs_queue = s.greedy_bfs_queue := by
  have hadd : aStarOps.add s (xy.1 + off.1, xy.2 + off.2) =
      some { s with a_star_queue :=
        s.a_star_queue ++ [((h, cost), (xy.1 + off.1, xy.2 + off.2))] } := by
    show a_star_add s (xy.1 + off.1, xy.2 + off.2) = _
    rw [a_star_add]
    simp only [hh, hpl]
  obtain ⟨g1, hset, hget1, hlen1, hok1⟩ :=
    gridModify_of_get (fun cc => { cc with ancestor := s.last_explored }) hget
  refine ⟨{ s with a_star_queue :=
      s.a_star_queue ++ [((h, cost), (xy.1 + off.1, xy.2 + off.2))], grid := g1 },
    ?_, rfl, ?_, rfl, rfl, rfl, rfl⟩
  · rw [addNeighborsFor]
    simp only []
    have hinb4 : 0 ≤ xy.1 + off.1 ∧ xy.1 + off.1 < (s.size : Int) ∧
        0 ≤ xy.2 + off.2 ∧ xy.2 + off.2 < (s.size : Int) := hinb
    rw [if_pos hinb4]
    simp only [hget]
    rw [if_pos hst, if_neg (by simp [heap_isIn_false])]
    simp only [hadd]
    have hset2 : gridSetAncestor s.grid (xy.1 + off.1, xy.2 + off.2)
        s.last_explored = some g1 := hset
    simp only [hset2]
  · exact hget1

/-- Behavior of one add_neighbors iteration with the greedy best-first closures on
an in-bounds UNEXPLORED or GOAL neighbor: as for A*, the membership scan never
fires, so the entry keyed by the heuristic radicand is pushed and the ancestor of
the neighbor is rewritten to last_explored. -/
lemma addNeighborsFor_greedy_push {s : SearchManager} {xy : Pos} {off : Int × Int}
    {c : Cell} {h : Nat}
    (hinb : inB s.size (xy.1 + off.1, xy.2 + off.2))
    (hget : gridGetCell s.grid (xy.1 + off.1, xy.2 + off.2) = some c)
    (hst : c.gridState = .UNEXPLORED ∨ c.gridState = .GOAL)
    (hh : heuristicSq s (xy.1 + off.1, xy.2 + off.2) = some h) :
    ∃ s1, addNeighborsFor greedyOps xy s off = some s1 ∧
      s1.greedy_bfs_queue = s.greedy_bfs_queue ++ [(h, (xy.1 + off.1, xy.2 + off.2))] ∧
      gridGetCell s1.grid (xy.1 + off.1, xy.2 + off.2) =
        some { c with ancestor := s.last_explored } ∧
      s1.last_explored = s.last_explored := by
  have hadd : greedyOps.add s (xy.1 + off.1, xy.2 + off.2) =
      some { s with greedy_bfs_queue :=
        s.greedy_bfs_queue ++ [(h, (xy.1 + off.1, xy.2 + off.2))] } := by
    show greedy_add s (xy.1 + off.1, xy.2 + off.2) = _
    rw [greedy_add]
    simp only [hh]
  obtain ⟨g1, hset, hget1, hlen1, hok1⟩ :=
    gridModify_of_get (fun cc => { cc with ancestor := s.last_explored }) hget
  refine ⟨{ s with greedy_bfs_queue :=
      s.greedy_bfs_queue ++ [(h, (xy.1 + off.1, xy.2 + off.2))], grid := g1 },
    ?_, rfl, hget1, rfl⟩
  rw [addNeighborsFor]
  simp only []
  have hinb4 : 0 ≤ xy.1 + off.1 ∧ xy.1 + off.1 < (s.size : Int) ∧
      0 ≤ xy.2 + off.2 ∧ xy.2 + off.2 < (s.size : Int) := hinb
  rw [if_pos hinb4]
  simp only [hget]
  rw [if_pos hst, if_neg (by simp [greedy_isIn_false])]
  simp only [hadd]
  have hset2 : gridSetAncestor s.grid (xy.1 + off.1, xy.2 + off.2)
      s.last_explored = some g1 := hset
  simp only [hset2]

/-- Behavior of one add_neighbors iteration with the bfs closures when the
neighbor is already queued: the membership scan finds it and the default
handleExistingNeighbor is a no-op, so the state is returned unchanged. -/
lemma addNeighborsFor_bfs_existing {s : SearchManager} {xy : Pos} {off : Int × Int}
    {c : Cell}
    (hinb : inB s.size (xy.1 + off.1, xy.2 + off.2))
    (hget : gridGetCell s.grid (xy.1 + off.1, xy.2 + off.2) = some c)
    (hst : c.gridState = .UNEXPLORED ∨ c.gridState = .GOAL)
    (hmem : (xy.1 + off.1, xy.2 + off.2) ∈ s.bfs_queue) :
    addNeighborsFor bfsOps xy s off = some s := by
  rw [addNeighborsFor]
  simp only []
  have hinb4 : 0 ≤ xy.1 + off.1 ∧ xy.1 + off.1 < (s.size : Int) ∧
      0 ≤ xy.2 + off.2 ∧ xy.2 + off.2 < (s.size : Int) := hinb
  rw [if_pos hinb4]
  simp only [hget]
  rw [if_pos hst]
  have hin : bfsOps.isIn s (xy.1 + off.1, xy.2 + off.2) = true := by
    show s.bfs_queue.contains _ = true
    simpa using hmem
  rw [if_pos hin]
  rfl

/-- Behavior of one add_neighbors iteration with the dfs closures when the
neighbor is already stacked: dfs_handle_existing_neighbor removes its first
occurrence, reappends it at the top of the stack and rewrites its ancestor to
last_explored. -/
lemma addNeighborsFor_dfs_existing {s : SearchManager} {xy : Pos} {off : Int × Int}
    {c : Cell}
    (hinb : inB s.size (xy.1 + off.1, xy.2 + off.2))
    (hget : gridGetCell s.grid (xy.1 + off.1, xy.2 + off.2) = some c)
    (hst : c.gridState = .UNEXPLORED ∨ c.gridState = .GOAL)
    (hmem : (xy.1 + off.1, xy.2 + off.2) ∈ s.dfs_stack) :
    ∃ s1, addNeighborsFor dfsOps xy s off = some s1 ∧
      s1.dfs_stack = s.dfs_stack.erase (xy.1 + off.1, xy.2 + off.2) ++
        [(xy.1 + off.1, xy.2 + off.2)] ∧
      gridGetCell s1.grid (xy.1 + off.1, xy.2 + off.2) =
        some { c with ancestor := s.last_explored } ∧
      s1.last_explored = s.last_explored ∧ s1.bfs_queue = s.bfs_queue ∧
      s1.a_star_queue = s.a_star_queue := by
  obtain ⟨g1, hset, hget1, hlen1, hok1⟩ :=
    gridModify_of_get (fun cc => { cc with ancestor := s.last_explored }) hget
  have hcon : s.dfs_stack.contains (xy.1 + off.1, xy.2 + off.2) = true := by
    simpa using hmem
  refine ⟨{ s with dfs_stack := s.dfs_stack.erase (xy.1 + off.1, xy.2 + off.2) ++
      [(xy.1 + off.1, xy.2 + off.2)], grid := g1 }, ?_, rfl, hget1, rfl, rfl, rfl⟩
  rw [addNeighborsFor]
  simp only []
  have hinb4 : 0 ≤ xy.1 + off.1 ∧ xy.1 + off.1 < (s.size : Int) ∧
      0 ≤ xy.2 + off.2 ∧ xy.2 + off.2 < (s.size : Int) := hinb
  rw [if_pos hinb4]
  simp only [hget]
  rw [if_pos hst]
  have hin : dfsOps.isIn s (xy.1 + off.1, xy.2 + off.2) = true := hcon
  rw [if_pos hin]
  show dfs_handle_existing_neighbor s (xy.1 + off.1, xy.2 + off.2) = _
  rw [dfs_handle_existing_neighbor, if_pos hcon]
  have hset2 : gridSetAncestor s.grid (xy.1 + off.1, xy.2 + off.2)
      s.last_explored = some g1 := hset
  simp only [hset2]

/-- Claim C8: whenever the A* step discovers a new neighbor (in bounds, UNEXPLORED
or GOAL, not detected in the frontier — which for the A* queue is always the case),
the entry it pushes is keyed by the heuristic of the neighbor plus the path length
of last_explored: the hypothesis hpl fixes the cost term as the ancestor-hop count
from start to the discoverer (the currently explored cell), not to the inserted
neighbor itself, and the pushed entry carries exactly that pair, while the ancestor
of the neighbor is set to last_explored. -/
theorem c8_astar_insert_key {s : SearchManager} {xy : Pos} {off : Int × Int}
    {c : Cell} {h cost : Nat}
    (hinb : inB s.size (xy.1 + off.1, xy.2 + off.2))
    (hget : gridGetCell s.grid (xy.1 + off.1, xy.2 + off.2) = some c)
    (hst : c.gridState = .UNEXPLORED ∨ c.gridState = .GOAL)
    (hh : heuristicSq s (xy.1 + off.1, xy.2 + off.2) = some h)
    (hpl : pathLength s s.last_explored = .ret cost) :
    ∃ s1, addNeighborsFor aStarOps xy s off = some s1 ∧
      s1.a_star_queue = s.a_star_queue ++ [((h, cost), (xy.1 + off.1, xy.2 + off.2))] ∧
      gridGetCell s1.grid (xy.1 + off.1, xy.2 + off.2) =
        some { c with ancestor := s.last_explored } ∧
      s1.last_explored = s.last_explored :=
  match addNeighborsFor_astar_push hinb hget hst hh hpl with
  | ⟨s1, h1, h2, h3, h4, _, _, _⟩ => ⟨s1, h1, h2, h3, h4⟩

/-- A mid-run A* state on a 3 by 3 grid: the run started at (0, 0), has explored
(1, 0) and is exploring (1, 1), so the chain from (1, 1) to start has two hops. -/
def c8W : SearchManager where
  size := 3
  grid := [[{ gridState := .START }, { gridState := .UNEXPLORED },
            { gridState := .UNEXPLORED }],
           [{ gridState := .SEEN, ancestor := some (0, 0) },
            { gridState := .CURRENT, ancestor := some (1, 0) },
            { gridState := .UNEXPLORED }],
           [{ gridState := .UNEXPLORED }, { gridState := .UNEXPLORED },
            { gridState := .GOAL }]]
  bfs_queue := []
  dfs_stack := []
  a_star_queue := []
  greedy_bfs_queue := []
  beam_size := 3
  beam_queue := []
  goal_pos := some (2, 2)
  start_pos := some (0, 0)
  path_started := true
  last_explored := some (1, 1)
  finished := false
  cells_visited := 2

theorem c8_astar_insert_key_witness :
    (addNeighborsFor aStarOps (1, 1) c8W (0, 1)).map
        (fun t => ((t.a_star_queue, (gridGetCell t.grid (1, 2)).map Cell.ancestor) :
          List (AStarKey × Pos) × Option (Option Pos))) =
      some ([((1, 2), (1, 2))], some (some (1, 1))) := by
  obtain ⟨s1, heq, hq, hanc, _⟩ :=
    @c8_astar_insert_key c8W (1, 1) (0, 1)
      { gridState := .UNEXPLORED } 1 2
      (by decide) (by decide) (Or.inl rfl) (by decide) (by decide)
  have hq2 : s1.a_star_queue = [((1, 2), (((1 : Int), (2 : Int)) : Pos))] := hq
  have hanc2 : gridGetCell s1.grid (1, 2) =
      some { gridState := GridState.UNEXPLORED, ancestor := some (1, 1) } := hanc
  rw [heq]
  simp only [Option.map_some']
  rw [hq2, hanc2]
  rfl

/-- A mid-run state on a 3 by 3 grid in which the neighbor (1, 2) of the currently
explored cell (1, 1) is already present in every frontier structure, with its
recorded ancestor (0, 2), its first discoverer. -/
def c9X : SearchManager where
  size := 3
  grid := [[{ gridState := .START }, { gridState := .SEEN, ancestor := some (0, 0) },
            { gridState := .SEEN, ancestor := some (0, 1) }],
           [{ gridState := .SEEN, ancestor := some (0, 0) },
            { gridState := .CURRENT, ancestor := some (1, 0) },
            { gridState := .UNEXPLORED, ancestor := some (0, 2) }],
           [{ gridState := .UNEXPLORED }, { gridState := .UNEXPLORED },
            { gridState := .GOAL }]]
  bfs_queue := [(1, 2)]
  dfs_stack := [(1, 2), (0, 2)]
  a_star_queue := [((9, 0), (1, 2))]
  greedy_bfs_queue := [(7, (1, 2))]
  beam_size := 3
  beam_queue := []
  goal_pos := some (2, 2)
  start_pos := some (0, 0)
  path_started := true
  last_explored := some (1, 1)
  finished := false
  cells_visited := 4

/-- Counterexample to claim C9 at the explicit state c9X: the A* queue already
holds an entry for the neighbor (1, 2), whose recorded ancestor is (0, 2); the
claim says the A* strategy leaves the frontier position and the ancestor of such a
neighbor unchanged, but expanding (1, 2) from (1, 1) pushes a duplicate entry (the
membership scan compares (key, position) pairs against a bare position, which is
never equal) and rewrites the ancestor to (1, 1). -/
theorem c9_astar_rewrites_ancestor_counterexample :
    ((addNeighborsFor aStarOps (1, 1) c9X (0, 1)).map fun t =>
        ((t.a_star_queue.map Prod.snd, (gridGetCell t.grid (1, 2)).map Cell.ancestor) :
          List Pos × Option (Option Pos))) =
      some ([(1, 2), (1, 2)], some (some (1, 1))) ∧
    (gridGetCell c9X.grid (1, 2)).map Cell.ancestor = some (some (0, 2)) ∧
    c9X.a_star_queue.map Prod.snd = [(1, 2)] := by
  decide

/-- Claim C9 amended: when a candidate neighbor (in bounds, UNEXPLORED or GOAL) is
already present in the frontier, the depth-first strategy moves it to the
most-recently-inserted stack position and rewrites its ancestor to last_explored,
and breadth-first leaves the state entirely unchanged, both as the claim states;
but greedy best-first and A* do not detect the presence (their frontier entries are
key-position pairs whose comparison with a bare position is always false), so
instead of leaving the neighbor untouched they push a duplicate entry and rewrite
its ancestor to last_explored. -/
theorem c9_amended_existing_neighbor :
    (∀ (s : SearchManager) (xy : Pos) (off : Int × Int) (c : Cell),
      inB s.size (xy.1 + off.1, xy.2 + off.2) →
      gridGetCell s.grid (xy.1 + off.1, xy.2 + off.2) = some c →
      (c.gridState = .UNEXPLORED ∨ c.gridState = .GOAL) →
      (xy.1 + off.1, xy.2 + off.2) ∈ s.dfs_stack →
      ∃ s1, addNeighborsFor dfsOps xy s off = some s1 ∧
        s1.dfs_stack = s.dfs_stack.erase (xy.1 + off.1, xy.2 + off.2) ++
          [(xy.1 + off.1, xy.2 + off.2)] ∧
        gridGetCell s1.grid (xy.1 + off.1, xy.2 + off.2) =
          some { c with ancestor := s.last_explored }) ∧
    (∀ (s : SearchManager) (xy : Pos) (off : Int × Int) (c : Cell),
      inB s.size (xy.1 + off.1, xy.2 + off.2) →
      gridGetCell s.grid (xy.1 + off.1, xy.2 + off.2) = some c →
      (c.gridState = .UNEXPLORED ∨ c.gridState = .GOAL) →
      (xy.1 + off.1, xy.2 + off.2) ∈ s.bfs_queue →
      addNeighborsFor bfsOps xy s off = some s) ∧
    (∀ (s : SearchManager) (xy : Pos) (off : Int × Int) (c : Cell) (h cost : Nat),
      inB s.size (xy.1 + off.1, xy.2 + off.2) →
      gridGetCell s.grid (xy.1 + off.1, xy.2 + off.2) = some c →
      (c.gridState = .UNEXPLORED ∨ c.gridState = .GOAL) →
      (xy.1 + off.1, xy.2 + off.2) ∈ s.a_star_queue.map Prod.snd →
      heuristicSq s (xy.1 + off.1, xy.2 + off.2) = some h →
      pathLength s s.last_explored = .ret cost →
      ∃ s1, addNeighborsFor aStarOps xy s off = some s1 ∧
        s1.a_star_queue = s.a_star_queue ++ [((h, cost), (xy.1 + off.1, xy.2 + off.2))] ∧
        gridGetCell s1.grid (xy.1 + off.1, xy.2 + off.2) =
          some { c with ancestor := s.last_explored }) ∧
    (∀ (s : SearchManager) (xy : Pos) (off : Int × Int) (c : Cell) (h : Nat),
      inB s.size (xy.1 + off.1, xy.2 + off.2) →
      gridGetCell s.grid (xy.1 + off.1, xy.2 + off.2) = some c →
      (c.gridState = .UNEXPLORED ∨ c.gridState = .GOAL) →
      (xy.1 + off.1, xy.2 + off.2) ∈ s.greedy_bfs_queue.map Prod.snd →
      heuristicSq s (xy.1 + off.1, xy.2 + off.2) = some h →
      ∃ s1, addNeighborsFor greedyOps xy s off = some s1 ∧
        s1.greedy_bfs_queue = s.greedy_bfs_queue ++ [(h, (xy.1 + off.1, xy.2 + off.2))] ∧
        gridGetCell s1.grid (xy.1 + off.1, xy.2 + off.2) =
          some { c with ancestor := s.last_explored }) := by
  refine ⟨?_, ?_, ?_, ?_⟩
  · intro s xy off c hinb hget hst hmem
    obtain ⟨s1, h1, h2, h3, _⟩ := addNeighborsFor_dfs_existing hinb hget hst hmem
    exact ⟨s1, h1, h2, h3⟩
  · intro s xy off c hinb hget hst hmem
    exact addNeighborsFor_bfs_existing hinb hget hst hmem
  · intro s xy off c h cost hinb hget hst _hmem hh hpl
    obtain ⟨s1, h1, h2, h3, _⟩ := addNeighborsFor_astar_push hinb hget hst hh hpl
    exact ⟨s1, h1, h2, h3⟩
  · intro s xy off c h hinb hget hst _hmem hh
    obtain ⟨s1, h1, h2, h3, _⟩ := addNeighborsFor_greedy_push hinb hget hst hh
    exact ⟨s1, h1, h2, h3⟩

theorem c9_amended_existing_neighbor_witness :
    addNeighborsFor bfsOps (1, 1) c9X (0, 1) = some c9X ∧
    (addNeighborsFor dfsOps (1, 1) c9X (0, 1)).map SearchManager.dfs_stack =
      some [(0, 2), (1, 2)] ∧
    (addNeighborsFor aStarOps (1, 1) c9X (0, 1)).map
      (fun t => t.a_star_queue.map Prod.snd) = some [(1, 2), (1, 2)] ∧
    (addNeighborsFor greedyOps (1, 1) c9X (0, 1)).map
      (fun t => t.greedy_bfs_queue.map Prod.snd) = some [(1, 2), (1, 2)] := by
  obtain ⟨hdfs, hbfs, hastar, hgreedy⟩ := c9_amended_existing_neighbor
  refine ⟨?_, ?_, ?_, ?_⟩
  · exact hbfs c9X (1, 1) (0, 1) { gridState := .UNEXPLORED, ancestor := some (0, 2) }
      (by decide) (by decide) (Or.inl rfl) (by decide)
  · obtain ⟨s1, h1, h2, _⟩ := hdfs c9X (1, 1) (0, 1)
      { gridState := .UNEXPLORED, ancestor := some (0, 2) }
      (by decide) (by decide) (Or.inl rfl) (by decide)
    rw [h1]
    simp only [Option.map_some']
    rw [h2]
    decide
  · obtain ⟨s1, h1, h2, _⟩ := hastar c9X (1, 1) (0, 1)
      { gridState := .UNEXPLORED, ancestor := some (0, 2) } 1 2
      (by decide) (by decide) (Or.inl rfl) (by decide) (by decide) (by decide)
    rw [h1]
    simp only [Option.map_some']
    rw [h2]
    decide
  · obtain ⟨s1, h1, h2, _⟩ := hgreedy c9X (1, 1) (0, 1)
      { gridState := .UNEXPLORED, ancestor := some (0, 2) } 1
      (by decide) (by decide) (Or.inl rfl) (by decide) (by decide)
    rw [h1]
    simp only [Option.map_some']
    rw [h2]
    decide

/-- Manhattan distance between two positions: the claimed value of pathLength on
an obstacle-free grid. -/
def Dm (a b : Pos) : Nat :=
  (a.1 - b.1).natAbs + (a.2 - b.2).natAbs

/-- Grid state observed at a position. -/
def stateAt (s : SearchManager) (p : Pos) : Option GridState :=
  (gridGetCell s.grid p).map Cell.gridState

/-- Ancestor observed at a position. -/
def ancAt (s : SearchManager) (p : Pos) : Option (Option Pos) :=
  (gridGetCell s.grid p).map Cell.ancestor

lemma Dm_eq_zero_iff {a b : Pos} : Dm a b = 0 ↔ a = b := by
  unfold Dm
  constructor
  · intro h
    have h1 : a.1 = b.1 := by omega
    have h2 : a.2 = b.2 := by omega
    exact Prod.ext h1 h2
  · rintro rfl
    omega

/-- A unit step in a cardinal direction changes the Manhattan distance to the
start by exactly one. -/
lemma Dm_neighbor {st p : Pos} {off : Int × Int} (hoff : off ∈ neighborOffsets) :
    Dm st (p.1 + off.1, p.2 + off.2) = Dm st p + 1 ∨
      Dm st (p.1 + off.1, p.2 + off.2) + 1 = Dm st p := by
  have h4 : off = ((-1 : Int), (0 : Int)) ∨ off = ((0 : Int), (1 : Int)) ∨
      off = ((1 : Int), (0 : Int)) ∨ off = ((0 : Int), (-1 : Int)) := by
    simpa [neighborOffsets] using hoff
  unfold Dm
  rcases h4 with rfl | rfl | rfl | rfl <;> simp <;> omega

/-- Toward-start move: every in-bounds position at positive distance from an
in-bounds start has an in-bounds cardinal neighbor one step closer, and the
offset can be walked both ways. -/
lemma Dm_geo1 {n : Nat} {st p : Pos} (hst : inB n st) (hp : inB n p)
    (hd : 1 ≤ Dm st p) :
    ∃ off ∈ neighborOffsets, ∃ off2 ∈ neighborOffsets,
      inB n (p.1 + off.1, p.2 + off.2) ∧
      Dm st (p.1 + off.1, p.2 + off.2) + 1 = Dm st p ∧
      ((p.1 + off.1) + off2.1, (p.2 + off.2) + off2.2) = p := by
  obtain ⟨hs1, hs2, hs3, hs4⟩ := hst
  obtain ⟨hp1, hp2, hp3, hp4⟩ := hp
  by_cases hx : p.1 = st.1
  · -- move in the y direction
    have hy : p.2 ≠ st.2 := by
      intro hy
      have hz : Dm st p = 0 := Dm_eq_zero_iff.mpr (Prod.ext hx.symm hy.symm)
      omega
    by_cases hlt : p.2 < st.2
    · refine ⟨(0, 1), by simp [neighborOffsets], (0, -1), by simp [neighborOffsets],
        ⟨by simpa using hp1, by simpa using hp2, by omega, by omega⟩, ?_, by simp⟩
      unfold Dm
      simp only []
      omega
    · refine ⟨(0, -1), by simp [neighborOffsets], (0, 1), by simp [neighborOffsets],
        ⟨by simpa using hp1, by simpa using hp2, by omega, by omega⟩, ?_, by simp⟩
      unfold Dm
      simp only []
      omega
  · by_cases hlt : p.1 < st.1
    · refine ⟨(1, 0), by simp [neighborOffsets], (-1, 0), by simp [neighborOffsets],
        ⟨by omega, by omega, by simpa using hp3, by simpa using hp4⟩, ?_, by simp⟩
      unfold Dm
      simp only []
      omega
    · refine ⟨(-1, 0), by simp [neighborOffsets], (1, 0), by simp [neighborOffsets],
        ⟨by omega, by omega, by simpa using hp3, by simpa using hp4⟩, ?_, by simp⟩
      unfold Dm
      simp only []
      omega

/-- Every distance level up to the distance of an in-bounds target is realized by
some in-bounds position. -/
lemma Dm_geo2 {n : Nat} {st gl : Pos} (hst : inB n st) (hgl : inB n gl) :
    ∀ k, k ≤ Dm st gl → ∃ p, inB n p ∧ Dm st p = k := by
  intro k hk
  obtain ⟨j, hj⟩ : ∃ j, Dm st gl = k + j := ⟨Dm st gl - k, by omega⟩
  clear hk
  induction j generalizing gl with
  | zero => exact ⟨gl, hgl, by omega⟩
  | succ m ih =>
    have hd : 1 ≤ Dm st gl := by omega
    obtain ⟨off, _, off2, _, hinb, hstep, _⟩ := Dm_geo1 hst hgl hd
    exact ih hinb (by omega)

/-- Combined effect description of a state recoloring at an in-bounds position of
a well-formed grid. -/
lemma setState_effects {n : Nat} {g : Grid} {p : Pos} {st1 : GridState} {g1 : Grid}
    (hok : okGrid n g) (hp : inB n p) (hset : gridSetGridState g p st1 = some g1) :
    okGrid n g1 ∧
    (gridGetCell g1 p).map Cell.gridState = some st1 ∧
    (gridGetCell g1 p).map Cell.ancestor = (gridGetCell g p).map Cell.ancestor ∧
    (∀ q : Pos, inB n q → q ≠ p → gridGetCell g1 q = gridGetCell g q) := by
  obtain ⟨c, hc, hget1, _, hokk⟩ := gridModifyCell_some hset
  refine ⟨hokk n hok, ?_, ?_, gridModifyCell_frame_inb hok hp hset⟩
  · rw [hget1]
    rfl
  · rw [hget1, hc]
    rfl

/-- Combined effect description of an ancestor write at an in-bounds position of
a well-formed grid. -/
lemma setAnc_effects {n : Nat} {g : Grid} {p : Pos} {a : Option Pos} {g1 : Grid}
    (hok : okGrid n g) (hp : inB n p) (hset : gridSetAncestor g p a = some g1) :
    okGrid n g1 ∧
    (gridGetCell g1 p).map Cell.ancestor = some a ∧
    (gridGetCell g1 p).map Cell.gridState = (gridGetCell g p).map Cell.gridState ∧
    (∀ q : Pos, inB n q → q ≠ p → gridGetCell g1 q = gridGetCell g q) := by
  obtain ⟨c, hc, hget1, _, hokk⟩ := gridModifyCell_some hset
  refine ⟨hokk n hok, ?_, ?_, gridModifyCell_frame_inb hok hp hset⟩
  · rw [hget1]
    rfl
  · rw [hget1, hc]
    rfl

lemma list_set_same {α : Type} : ∀ (l : List α) (i : Nat) (a : α),
    l[i]? = some a → l.set i a = l
  | [], i, a, h => by simp at h
  | x :: xs, 0, a, h => by
    simp at h
    simp [h]
  | x :: xs, i + 1, a, h => by
    simp at h
    simp [list_set_same xs i a h]

/-- Writing back the cell a position already holds leaves the grid unchanged. -/
lemma gridSetCell_same {g : Grid} {p : Pos} {c : Cell}
    (h : gridGetCell g p = some c) : gridSetCell g p c = some g := by
  obtain ⟨xi, row, yi, hxi, hrow, hyi, hc⟩ := gridGetCell_some h
  show gridModifyCell g p (fun _ => c) = some g
  rw [gridModifyCell, hxi, Option.some_bind, hrow, Option.some_bind, hyi,
    Option.some_bind, hc, Option.some_bind]
  rw [list_set_same row yi c hc, list_set_same g xi row hrow]

/-- Cell contents of the obstacle-free configured grid of claim C4. -/
def initCell (st gl : Pos) (x y : Nat) : Cell :=
  if ((x : Int), (y : Int)) = st then { gridState := .START }
  else if ((x : Int), (y : Int)) = gl then { gridState := .GOAL }
  else {}

/-- The obstacle-free n by n grid with START at st and GOAL at gl. -/
def mkGrid (n : Nat) (st gl : Pos) : Grid :=
  (List.range n).map (fun x => (List.range n).map (fun y => initCell st gl x y))

/-- The obstacle-free configured manager of claim C4: a fresh n by n grid except
that the start and goal cells carry their markers, the corresponding positions
recorded, everything else at its initial zero value. -/
def mkEmpty (n : Nat) (st gl : Pos) : SearchManager where
  size := n
  grid := mkGrid n st gl
  bfs_queue := []
  dfs_stack := []
  a_star_queue := []
  greedy_bfs_queue := []
  beam_size := 3
  beam_queue := []
  goal_pos := some gl
  start_pos := some st
  path_started := false
  last_explored := none
  finished := false
  cells_visited := 0

lemma mkGrid_ok (n : Nat) (st gl : Pos) : okGrid n (mkGrid n st gl) := by
  constructor
  · simp [mkGrid]
  · intro row hrow
    simp only [mkGrid, List.mem_map] at hrow
    obtain ⟨x, _, rfl⟩ := hrow
    simp

lemma mkGrid_get {n : Nat} {st gl : Pos} {p : Pos} (hp : inB n p) :
    gridGetCell (mkGrid n st gl) p = some (initCell st gl p.1.toNat p.2.toNat) := by
  obtain ⟨h1, h2, h3, h4⟩ := hp
  have hlen : (mkGrid n st gl).length = n := by simp [mkGrid]
  have hxi : pyIdx (mkGrid n st gl).length p.1 = some p.1.toNat := by
    rw [hlen]; exact pyIdx_of_inb h1 h2
  have hxlt : p.1.toNat < n := by omega
  have hrow : (mkGrid n st gl)[p.1.toNat]? =
      some ((List.range n).map (fun y => initCell st gl p.1.toNat y)) := by
    rw [mkGrid]
    rw [List.getElem?_map]
    rw [List.getElem?_range hxlt]
    rfl
  have hrlen : ((List.range n).map (fun y => initCell st gl p.1.toNat y)).length = n := by
    simp
  have hyi : pyIdx ((List.range n).map (fun y => initCell st gl p.1.toNat y)).length p.2 =
      some p.2.toNat := by
    rw [hrlen]; exact pyIdx_of_inb h3 h4
  have hylt : p.2.toNat < n := by omega
  rw [gridGetCell, hxi, Option.some_bind, hrow, Option.some_bind, hyi, Option.some_bind]
  rw [List.getElem?_map, List.getElem?_range hylt]
  rfl

lemma stateAt_mkEmpty {n : Nat} {st gl : Pos} {p : Pos} (hp : inB n p) :
    stateAt (mkEmpty n st gl) p =
      some (if p = st then .START else if p = gl then .GOAL else .UNEXPLORED) := by
  have hg : gridGetCell (mkEmpty n st gl).grid p =
      some (initCell st gl p.1.toNat p.2.toNat) := mkGrid_get hp
  rw [stateAt, hg]
  obtain ⟨h1, _, h3, _⟩ := hp
  have hpeq : (((p.1.toNat : Int), (p.2.toNat : Int)) : Pos) = p := by
    have e1 : (p.1.toNat : Int) = p.1 := Int.toNat_of_nonneg h1
    have e2 : (p.2.toNat : Int) = p.2 := Int.toNat_of_nonneg h3
    exact Prod.ext e1 e2
  rw [initCell, hpeq]
  by_cases hps : p = st
  · rw [if_pos hps, if_pos hps]
    rfl
  · rw [if_neg hps, if_neg hps]
    by_cases hpg : p = gl
    · rw [if_pos hpg, if_pos hpg]
      rfl
    · rw [if_neg hpg, if_neg hpg]
      rfl

lemma mapM_option_map {α β : Type} (g : α → β) :
    ∀ (l : List α) (f : α → Option β), (∀ a ∈ l, f a = some (g a)) →
      l.mapM f = some (l.map g)
  | [], f, _ => rfl
  | a :: l, f, h => by
    rw [List.mapM_cons, h a (by simp), mapM_option_map g l f (fun b hb => h b (by simp [hb]))]
    rfl

lemma ancAt_mkEmpty {n : Nat} {st gl : Pos} {p : Pos} (hp : inB n p) :
    ancAt (mkEmpty n st gl) p = some none := by
  have hg : gridGetCell (mkEmpty n st gl).grid p =
      some (initCell st gl p.1.toNat p.2.toNat) := mkGrid_get hp
  rw [ancAt, hg]
  unfold initCell
  split
  · rfl
  · split <;> rfl

lemma mkGrid_row {n : Nat} (st gl : Pos) {x : Nat} (hx : x < n) :
    (mkGrid n st gl)[x]? = some ((List.range n).map (fun y => initCell st gl x y)) := by
  rw [mkGrid, List.getElem?_map, List.getElem?_range hx]
  rfl

/-- The comprehension body of reset_grid maps every cell of the obstacle-free
configured grid to itself. -/
lemma initCell_reset (st gl : Pos) (x y : Nat) :
    (if (initCell st gl x y).gridState ≠ GridState.SEEN ∧
        (initCell st gl x y).gridState ≠ GridState.PATH
     then ({ gridState := (initCell st gl x y).gridState, ancestor := none } : Cell)
     else ({} : Cell)) = initCell st gl x y := by
  by_cases h1 : (((x : Int), (y : Int)) : Pos) = st
  · rw [initCell, if_pos h1]
    decide
  · by_cases h2 : (((x : Int), (y : Int)) : Pos) = gl
    · rw [initCell, if_neg h1, if_pos h2]
      decide
    · rw [initCell, if_neg h1, if_neg h2]
      decide

/-- reset leaves the freshly configured obstacle-free manager unchanged: no cell
is SEEN or PATH, last_explored is unset, and rewriting the goal cell stores the
value it already holds. -/
lemma reset_mkEmpty {n : Nat} {st gl : Pos} (hgl : inB n gl)
    (hne : st ≠ gl) :
    reset (mkEmpty n st gl) = some (mkEmpty n st gl) := by
  have hgrid : (List.range n).mapM (fun x => (List.range n).mapM (fun y =>
      (mkEmpty n st gl).grid[x]?.bind fun row =>
        row[y]?.bind fun c =>
          some (if c.gridState ≠ GridState.SEEN ∧ c.gridState ≠ GridState.PATH then
                  { gridState := c.gridState, ancestor := none }
                else ({} : Cell)))) = some (mkGrid n st gl) := by
    have houter := mapM_option_map (fun x => (List.range n).map (fun y => initCell st gl x y))
      (List.range n)
      (fun x => (List.range n).mapM (fun y =>
        (mkEmpty n st gl).grid[x]?.bind fun row =>
          row[y]?.bind fun c =>
            some (if c.gridState ≠ GridState.SEEN ∧ c.gridState ≠ GridState.PATH then
                    { gridState := c.gridState, ancestor := none }
                  else ({} : Cell))))
    rw [houter]
    · rfl
    · intro x hx
      have hxlt : x < n := by simpa using hx
      have hinner := mapM_option_map (fun y => initCell st gl x y) (List.range n)
        (fun y =>
          (mkEmpty n st gl).grid[x]?.bind fun row =>
            row[y]?.bind fun c =>
              some (if c.gridState ≠ GridState.SEEN ∧ c.gridState ≠ GridState.PATH then
                      { gridState := c.gridState, ancestor := none }
                    else ({} : Cell)))
      rw [hinner]
      intro y hy
      have hylt : y < n := by simpa using hy
      have hrow : (mkEmpty n st gl).grid[x]? =
          some ((List.range n).map (fun y => initCell st gl x y)) := mkGrid_row st gl hxlt
      have hcell : ((List.range n).map (fun y => initCell st gl x y))[y]? =
          some (initCell st gl x y) := by
        rw [List.getElem?_map, List.getElem?_range hylt]
        rfl
      rw [hrow, Option.some_bind, hcell, Option.some_bind, initCell_reset]
  have hglcell : gridGetCell (mkGrid n st gl) gl = some { gridState := .GOAL } := by
    have h := @mkGrid_get n st gl gl hgl
    rw [h]
    obtain ⟨h1, _, h3, _⟩ := hgl
    have hpeq : (((gl.1.toNat : Int), (gl.2.toNat : Int)) : Pos) = gl := by
      exact Prod.ext (Int.toNat_of_nonneg h1) (Int.toNat_of_nonneg h3)
    rw [initCell, hpeq, if_neg (fun hc => hne hc.symm), if_pos rfl]
  have hsetgl : gridSetCell (mkGrid n st gl) gl { gridState := .GOAL } =
      some (mkGrid n st gl) := gridSetCell_same hglcell
  have h1 : reset_grid (mkEmpty n st gl) = some (mkEmpty n st gl) := by
    have hstep : reset_grid (mkEmpty n st gl) =
        (gridSetCell (mkGrid n st gl) gl { gridState := .GOAL }).bind fun g =>
          some { mkEmpty n st gl with grid := g } := by
      rw [reset_grid]
      have hsz : (mkEmpty n st gl).size = n := rfl
      rw [hsz, hgrid, Option.some_bind]
      rfl
    rw [hstep, hsetgl, Option.some_bind]
    rfl
  rw [reset, h1, Option.some_bind]
  rfl

/-- A position whose cell carries one of the explored colors: START, CURRENT or
SEEN.  Such cells are skipped by the state test of add_neighbors. -/
def closedC (s : SearchManager) (q : Pos) : Prop :=
  stateAt s q = some .START ∨ stateAt s q = some .CURRENT ∨ stateAt s q = some .SEEN

/-- A position whose cell carries one of the two colors add_neighbors accepts:
UNEXPLORED or GOAL. -/
def openC (s : SearchManager) (q : Pos) : Prop :=
  stateAt s q = some .UNEXPLORED ∨ stateAt s q = some .GOAL

instance (s : SearchManager) (q : Pos) : Decidable (closedC s q) := by
  unfold closedC; infer_instance

instance (s : SearchManager) (q : Pos) : Decidable (openC s q) := by
  unfold openC; infer_instance

lemma closedC_not_openC {s : SearchManager} {q : Pos}
    (h : closedC s q) (ho : openC s q) : False := by
  rcases h with h | h | h <;> rcases ho with ho | ho <;> rw [h] at ho <;> simp at ho

/-- Number of in-bounds cells still colored open: the termination measure of the
breadth-first run on the obstacle-free grid, decreasing by one at every explored
cell. -/
def openCnt (n : Nat) (s : SearchManager) : Nat :=
  ((Finset.range n ×ˢ Finset.range n).filter
    (fun xy => openC s ((xy.1 : Int), (xy.2 : Int)))).card

lemma openCnt_le (n : Nat) (s : SearchManager) : openCnt n s ≤ n * n := by
  calc openCnt n s ≤ (Finset.range n ×ˢ Finset.range n).card :=
        Finset.card_filter_le _ _
    _ = n * n := by simp

lemma range_sq_inB {n : Nat} {xy : Nat × Nat}
    (hxy : xy ∈ Finset.range n ×ˢ Finset.range n) :
    inB n (((xy.1 : Int), (xy.2 : Int)) : Pos) := by
  rw [Finset.mem_product, Finset.mem_range, Finset.mem_range] at hxy
  refine ⟨Int.ofNat_nonneg _, ?_, Int.ofNat_nonneg _, ?_⟩
  · show (xy.1 : Int) < (n : Int)
    exact_mod_cast hxy.1
  · show (xy.2 : Int) < (n : Int)
    exact_mod_cast hxy.2

/-- Closing one in-bounds open cell strictly decreases the open-cell count. -/
lemma openCnt_lt {n : Nat} {s s2 : SearchManager} {p : Pos}
    (hp : inB n p) (ho : openC s p)
    (h : ∀ q : Pos, inB n q → (openC s2 q ↔ openC s q ∧ q ≠ p)) :
    openCnt n s2 < openCnt n s := by
  obtain ⟨hp1, hp2, hp3, hp4⟩ := hp
  have hco : (((p.1.toNat : Int), (p.2.toNat : Int)) : Pos) = p :=
    Prod.ext (Int.toNat_of_nonneg hp1) (Int.toNat_of_nonneg hp3)
  have hppmem : (p.1.toNat, p.2.toNat) ∈ (Finset.range n ×ˢ Finset.range n).filter
      (fun xy => openC s ((xy.1 : Int), (xy.2 : Int))) := by
    rw [Finset.mem_filter, Finset.mem_product, Finset.mem_range, Finset.mem_range]
    refine ⟨⟨by omega, by omega⟩, ?_⟩
    show openC s ((p.1.toNat : Int), (p.2.toNat : Int))
    rw [hco]
    exact ho
  have hsub : (Finset.range n ×ˢ Finset.range n).filter
      (fun xy => openC s2 ((xy.1 : Int), (xy.2 : Int))) ⊆
      ((Finset.range n ×ˢ Finset.range n).filter
      (fun xy => openC s ((xy.1 : Int), (xy.2 : Int)))).erase (p.1.toNat, p.2.toNat) := by
    intro xy hxy
    rw [Finset.mem_filter] at hxy
    obtain ⟨hxymem, hopen2⟩ := hxy
    obtain ⟨hopen1, hnep⟩ := (h _ (range_sq_inB hxymem)).mp hopen2
    rw [Finset.mem_erase]
    refine ⟨?_, Finset.mem_filter.mpr ⟨hxymem, hopen1⟩⟩
    intro hcontr
    apply hnep
    rw [hcontr]
    exact hco
  calc openCnt n s2 ≤ (((Finset.range n ×ˢ Finset.range n).filter
        (fun xy => openC s ((xy.1 : Int), (xy.2 : Int)))).erase (p.1.toNat, p.2.toNat)).card :=
        Finset.card_le_card hsub
    _ < openCnt n s := Finset.card_erase_lt_of_mem hppmem

/-- A position at Manhattan distance one is reached by one cardinal offset. -/
lemma Dm_one {a b : Pos} (h : Dm a b = 1) :
    ∃ off ∈ neighborOffsets, b = ((a.1 + off.1, a.2 + off.2) : Pos) := by
  have h4 : (b.1 = a.1 + 1 ∧ b.2 = a.2) ∨ (b.1 = a.1 + -1 ∧ b.2 = a.2) ∨
      (b.1 = a.1 ∧ b.2 = a.2 + 1) ∨ (b.1 = a.1 ∧ b.2 = a.2 + -1) := by
    unfold Dm at h
    omega
  rcases h4 with ⟨h1, h2⟩ | ⟨h1, h2⟩ | ⟨h1, h2⟩ | ⟨h1, h2⟩
  · exact ⟨(1, 0), by simp [neighborOffsets], Prod.ext (by simpa using h1) (by simpa using h2)⟩
  · exact ⟨(-1, 0), by simp [neighborOffsets], Prod.ext (by simpa using h1) (by simpa using h2)⟩
  · exact ⟨(0, 1), by simp [neighborOffsets], Prod.ext (by simpa using h1) (by simpa using h2)⟩
  · exact ⟨(0, -1), by simp [neighborOffsets], Prod.ext (by simpa using h1) (by simpa using h2)⟩

/-- On a state whose ancestors step the Manhattan distance to the start down by
one along a predicate-closed chain of in-bounds cells, the pathLength walk from
any chain position returns the accumulated count plus that distance, within
distance-plus-one fuel. -/
lemma pathLengthF_chain {n : Nat} {st : Pos} {s : SearchManager} (P : Pos → Prop)
    (hst : s.start_pos = some st)
    (hchain : ∀ q : Pos, inB n q → P q → q ≠ st →
      ∃ a, ancAt s q = some (some a) ∧ inB n a ∧ P a ∧ Dm st a + 1 = Dm st q) :
    ∀ (m : Nat) (p : Pos) (fuel c : Nat), inB n p → P p → Dm st p ≤ m → m < fuel →
      pathLengthF s fuel (some p) c = .ret (c + Dm st p) := by
  intro m
  induction m with
  | zero =>
    intro p fuel c hp hP hd hf
    have hp0 : Dm st p = 0 := by omega
    have hpst : st = p := Dm_eq_zero_iff.mp hp0
    obtain ⟨f, rfl⟩ : ∃ f, fuel = f + 1 := ⟨fuel - 1, by omega⟩
    rw [pathLengthF, hst, if_pos (congrArg some hpst.symm), hp0]
    simp
  | succ k ih =>
    intro p fuel c hp hP hd hf
    obtain ⟨f, rfl⟩ : ∃ f, fuel = f + 1 := ⟨fuel - 1, by omega⟩
    by_cases hpst : p = st
    · have hp0 : Dm st p = 0 := Dm_eq_zero_iff.mpr hpst.symm
      rw [pathLengthF, hst, if_pos (congrArg some hpst), hp0]
      simp
    · obtain ⟨a, hanc, hainb, haP, hdm⟩ := hchain p hp hP hpst
      obtain ⟨cell, hcell, hcanc⟩ : ∃ cell, gridGetCell s.grid p = some cell ∧
          cell.ancestor = some a := by
        rw [ancAt] at hanc
        rcases hg : gridGetCell s.grid p with _ | cell
        · rw [hg] at hanc
          simp at hanc
        · rw [hg] at hanc
          simp only [Option.map_some'] at hanc
          exact ⟨cell, rfl, by injection hanc⟩
      rw [pathLengthF, hst, if_neg (by simp [hpst])]
      simp only [hcell, hcanc]
      rw [ih a f (c + 1) hainb haP (by omega) (by omega)]
      congr 1
      omega

/-- The colorPath walk over a grid whose ancestors step the distance to the start
down by one along a predicate-closed chain terminates: it recolors cells along
the chain and returns a grid of the same shape with every ancestor intact. -/
lemma colorWalkF_chain {n : Nat} {st : Pos} (A : Pos → Option Pos) (P : Pos → Prop)
    (hchain : ∀ q : Pos, inB n q → P q → q ≠ st →
      ∃ a, A q = some a ∧ inB n a ∧ P a ∧ Dm st a + 1 = Dm st q) :
    ∀ (m : Nat) (g : Grid) (p : Pos) (fuel : Nat), okGrid n g →
      (∀ q : Pos, inB n q → (gridGetCell g q).map Cell.ancestor = some (A q)) →
      inB n p → P p → Dm st p ≤ m → m < fuel →
      ∃ g2, colorWalkF (some st) fuel g (some p) = .ret g2 ∧ okGrid n g2 ∧
        (∀ q : Pos, inB n q → (gridGetCell g2 q).map Cell.ancestor = some (A q)) := by
  intro m
  induction m with
  | zero =>
    intro g p fuel hok hA hp hP hd hf
    have hp0 : Dm st p = 0 := by omega
    have hpst : st = p := Dm_eq_zero_iff.mp hp0
    obtain ⟨f, rfl⟩ : ∃ f, fuel = f + 1 := ⟨fuel - 1, by omega⟩
    refine ⟨g, ?_, hok, hA⟩
    rw [colorWalkF, if_pos (congrArg some hpst)]
  | succ k ih =>
    intro g p fuel hok hA hp hP hd hf
    obtain ⟨f, rfl⟩ : ∃ f, fuel = f + 1 := ⟨fuel - 1, by omega⟩
    by_cases hpst : p = st
    · refine ⟨g, ?_, hok, hA⟩
      rw [colorWalkF, if_pos (congrArg some hpst.symm)]
    · obtain ⟨a, hAa, hainb, haP, hdm⟩ := hchain p hp hP hpst
      obtain ⟨cell, hcell, hcanc⟩ : ∃ cell, gridGetCell g p = some cell ∧
          cell.ancestor = some a := by
        have hAp := hA p hp
        rcases hg : gridGetCell g p with _ | cell
        · rw [hg] at hAp
          simp at hAp
        · rw [hg] at hAp
          simp only [Option.map_some'] at hAp
          refine ⟨cell, rfl, ?_⟩
          rw [hAa] at hAp
          injection hAp
      obtain ⟨g1, hmod, hget1, hlen1, hokf⟩ :=
        gridModify_of_get (fun c => { c with gridState := .PATH }) hcell
      have hset : gridSetGridState g p .PATH = some g1 := hmod
      have hok1 : okGrid n g1 := hokf n hok
      have heff := setState_effects hok hp hset
      have hA1 : ∀ q : Pos, inB n q →
          (gridGetCell g1 q).map Cell.ancestor = some (A q) := by
        intro q hq
        by_cases hqp : q = p
        · subst hqp
          rw [heff.2.2.1]
          exact hA q hq
        · rw [heff.2.2.2 q hq hqp]
          exact hA q hq
      rw [colorWalkF, if_neg (fun hcon => hpst (Option.some.inj hcon).symm)]
      simp only [hcell, hset, hcanc]
      exact ih g1 a f hok1 hA1 hainb haP (by omega) (by omega)

/-- The neighbor position produced by one offset of the add_neighbors loop. -/
abbrev nbr (xy : Pos) (off : Int × Int) : Pos := (xy.1 + off.1, xy.2 + off.2)

lemma openC_iff_cell {s : SearchManager} {q : Pos} {c : Cell}
    (hget : gridGetCell s.grid q = some c) :
    openC s q ↔ (c.gridState = .UNEXPLORED ∨ c.gridState = .GOAL) := by
  unfold openC stateAt
  rw [hget, Option.map_some']
  constructor
  · rintro (h | h)
    · exact Or.inl (Option.some.inj h)
    · exact Or.inr (Option.some.inj h)
  · rintro (h | h)
    · exact Or.inl (by rw [h])
    · exact Or.inr (by rw [h])

/-- One add_neighbors offset iteration skips an out-of-bounds target. -/
lemma addNF_bfs_oob {s : SearchManager} {xy : Pos} {off : Int × Int}
    (hinb : ¬ inB s.size (nbr xy off)) :
    addNeighborsFor bfsOps xy s off = some s := by
  rw [addNeighborsFor]
  simp only []
  have hinb4 : ¬ (0 ≤ xy.1 + off.1 ∧ xy.1 + off.1 < (s.size : Int) ∧
      0 ≤ xy.2 + off.2 ∧ xy.2 + off.2 < (s.size : Int)) := fun hcon => hinb hcon
  rw [if_neg hinb4]

/-- One add_neighbors offset iteration skips a target cell not colored
UNEXPLORED or GOAL. -/
lemma addNF_bfs_closed {s : SearchManager} {xy : Pos} {off : Int × Int} {c : Cell}
    (hinb : inB s.size (xy.1 + off.1, xy.2 + off.2))
    (hget : gridGetCell s.grid (xy.1 + off.1, xy.2 + off.2) = some c)
    (hst : ¬ (c.gridState = .UNEXPLORED ∨ c.gridState = .GOAL)) :
    addNeighborsFor bfsOps xy s off = some s := by
  rw [addNeighborsFor]
  simp only []
  have hinb4 : 0 ≤ xy.1 + off.1 ∧ xy.1 + off.1 < (s.size : Int) ∧
      0 ≤ xy.2 + off.2 ∧ xy.2 + off.2 < (s.size : Int) := hinb
  rw [if_pos hinb4]
  simp only [hget]
  rw [if_neg hst]

/-- One add_neighbors offset iteration of the breadth-first step on a fresh
target: the position joins the back of the FIFO queue and its ancestor is
rewritten to last_explored. -/
lemma addNF_bfs_add {s : SearchManager} {xy : Pos} {off : Int × Int} {c : Cell}
    (hinb : inB s.size (xy.1 + off.1, xy.2 + off.2))
    (hget : gridGetCell s.grid (xy.1 + off.1, xy.2 + off.2) = some c)
    (hst : c.gridState = .UNEXPLORED ∨ c.gridState = .GOAL)
    (hnm : ((xy.1 + off.1, xy.2 + off.2) : Pos) ∉ s.bfs_queue) :
    ∃ g1, gridSetAncestor s.grid (xy.1 + off.1, xy.2 + off.2) s.last_explored = some g1 ∧
      addNeighborsFor bfsOps xy s off =
        some { s with bfs_queue := s.bfs_queue ++ [(xy.1 + off.1, xy.2 + off.2)],
                      grid := g1 } := by
  have hadd : bfsOps.add s (xy.1 + off.1, xy.2 + off.2) =
      some { s with bfs_queue := s.bfs_queue ++ [(xy.1 + off.1, xy.2 + off.2)] } := rfl
  obtain ⟨g1, hset, hget1, hlen1, hok1⟩ :=
    gridModify_of_get (fun cc => { cc with ancestor := s.last_explored }) hget
  have hset2 : gridSetAncestor s.grid (xy.1 + off.1, xy.2 + off.2)
      s.last_explored = some g1 := hset
  refine ⟨g1, hset2, ?_⟩
  rw [addNeighborsFor]
  simp only []
  have hinb4 : 0 ≤ xy.1 + off.1 ∧ xy.1 + off.1 < (s.size : Int) ∧
      0 ≤ xy.2 + off.2 ∧ xy.2 + off.2 < (s.size : Int) := hinb
  rw [if_pos hinb4]
  simp only [hget]
  have hin : bfsOps.isIn s (xy.1 + off.1, xy.2 + off.2) = false := by
    show s.bfs_queue.contains _ = false
    simpa using hnm
  rw [if_pos hst, if_neg (by simp [hin])]
  simp only [hadd]
  simp only [hset2]

/-- The four cardinal offsets reach four pairwise distinct positions. -/
lemma neighborOffsets_pairwise (xy : Pos) :
    List.Pairwise (fun o1 o2 => nbr xy o1 ≠ nbr xy o2) neighborOffsets := by
  unfold neighborOffsets
  refine List.Pairwise.cons ?_ (List.Pairwise.cons ?_ (List.Pairwise.cons ?_ (by simp)))
  all_goals intro o ho
  all_goals fin_cases ho
  all_goals intro hcon
  all_goals simp only [nbr, Prod.mk.injEq] at hcon
  all_goals simp at hcon

/-- Folding the add_neighbors body of the breadth-first step over offsets with
pairwise distinct targets: the FIFO queue gains exactly the fresh targets (in
bounds, open-colored, not yet queued) in offset order, their ancestors are
rewritten to the unpacked last_explored position, every cell color is untouched,
and so is every non-grid, non-queue field. -/
lemma addN_fold_bfs {n : Nat} {xy : Pos} :
    ∀ (offs : List (Int × Int)) (s : SearchManager),
      okGrid n s.grid → s.size = n → s.last_explored = some xy →
      List.Pairwise (fun o1 o2 => nbr xy o1 ≠ nbr xy o2) offs →
      ∃ s2 L, offs.foldlM (addNeighborsFor bfsOps xy) s = some s2 ∧
        s2.bfs_queue = s.bfs_queue ++ L ∧
        L.Nodup ∧
        L.length ≤ offs.length ∧
        (∀ r : Pos, r ∈ L ↔ ∃ off ∈ offs, r = nbr xy off ∧
          inB n r ∧ openC s r ∧ r ∉ s.bfs_queue) ∧
        okGrid n s2.grid ∧
        (∀ q : Pos, inB n q → stateAt s2 q = stateAt s q) ∧
        (∀ r ∈ L, ancAt s2 r = some (some xy)) ∧
        (∀ q : Pos, inB n q → q ∉ L → ancAt s2 q = ancAt s q) ∧
        s2.size = s.size ∧ s2.start_pos = s.start_pos ∧ s2.goal_pos = s.goal_pos ∧
        s2.path_started = s.path_started ∧ s2.last_explored = s.last_explored ∧
        s2.finished = s.finished := by
  intro offs
  induction offs with
  | nil =>
    intro s hok hsz hle hpw
    refine ⟨s, [], rfl, by simp, List.nodup_nil, by simp, ?_, hok,
      fun q _ => rfl, by simp, fun q _ _ => rfl, rfl, rfl, rfl, rfl, rfl, rfl⟩
    intro r
    simp
  | cons off rest ih =>
    intro s hok hsz hle hpw
    obtain ⟨hhd, hpwr⟩ := List.pairwise_cons.mp hpw
    by_cases hinb : inB n (nbr xy off)
    · obtain ⟨c, hc⟩ := gridGetCell_inb hok hinb
      by_cases hopen : openC s (nbr xy off)
      · by_cases hmem : nbr xy off ∈ s.bfs_queue
        · -- already queued: the membership scan fires and the handler is a no-op
          have hstc : c.gridState = .UNEXPLORED ∨ c.gridState = .GOAL :=
            (openC_iff_cell hc).mp hopen
          have hstep : addNeighborsFor bfsOps xy s off = some s :=
            addNeighborsFor_bfs_existing (by rw [hsz]; exact hinb) hc hstc hmem
          obtain ⟨s2, L, hfold, hq, hnd, hlen, hchar, hokk, hstates, hancm, hancf,
              hsz2, hsp2, hgp2, hps2, hle2, hfin2⟩ := ih s hok hsz hle hpwr
          refine ⟨s2, L, ?_, hq, hnd, le_trans hlen (by simp), ?_, hokk, hstates,
            hancm, hancf, hsz2, hsp2, hgp2, hps2, hle2, hfin2⟩
          · rw [List.foldlM_cons, hstep]
            simpa using hfold
          · intro r
            rw [hchar r]
            constructor
            · rintro ⟨o, ho, hro, hrinb, hropen, hrnq⟩
              exact ⟨o, List.mem_cons_of_mem off ho, hro, hrinb, hropen, hrnq⟩
            · rintro ⟨o, ho, hro, hrinb, hropen, hrnq⟩
              rcases List.mem_cons.mp ho with rfl | ho2
              · exact absurd (hro ▸ hmem) hrnq
              · exact ⟨o, ho2, hro, hrinb, hropen, hrnq⟩
        · -- fresh target: it is appended and its ancestor rewritten
          have hstc : c.gridState = .UNEXPLORED ∨ c.gridState = .GOAL :=
            (openC_iff_cell hc).mp hopen
          obtain ⟨g1, hset, hstep⟩ := addNF_bfs_add (by rw [hsz]; exact hinb) hc hstc hmem
          obtain ⟨hok1, hancw, hstp, hframe1⟩ := setAnc_effects hok hinb hset
          obtain ⟨s2, L1, hfold, hq, hnd, hlen, hchar, hokk, hstates, hancm, hancf,
              hsz2, hsp2, hgp2, hps2, hle2, hfin2⟩ :=
            ih { s with bfs_queue := s.bfs_queue ++ [nbr xy off], grid := g1 }
              hok1 hsz hle hpwr
          have hstates1 : ∀ q : Pos, inB n q →
              stateAt ({ s with bfs_queue := s.bfs_queue ++ [nbr xy off], grid := g1 } : SearchManager) q = stateAt s q := by
            intro q hq
            by_cases hqt : q = nbr xy off
            · subst hqt
              show (gridGetCell g1 (nbr xy off)).map Cell.gridState = stateAt s (nbr xy off)
              rw [hstp]
              rfl
            · show (gridGetCell g1 q).map Cell.gridState = stateAt s q
              rw [hframe1 q hq hqt]
              rfl
          have hopen1 : ∀ q : Pos, inB n q →
              (openC ({ s with bfs_queue := s.bfs_queue ++ [nbr xy off], grid := g1 } : SearchManager) q ↔ openC s q) := by
            intro q hq
            unfold openC
            rw [hstates1 q hq]
          have hanc1t : ancAt ({ s with bfs_queue := s.bfs_queue ++ [nbr xy off], grid := g1 } : SearchManager) (nbr xy off) = some (some xy) := by
            show (gridGetCell g1 (nbr xy off)).map Cell.ancestor = some (some xy)
            rw [hancw, hle]
          have hancf1 : ∀ q : Pos, inB n q → q ≠ nbr xy off →
              ancAt ({ s with bfs_queue := s.bfs_queue ++ [nbr xy off], grid := g1 } : SearchManager) q = ancAt s q := by
            intro q hq hqt
            show (gridGetCell g1 q).map Cell.ancestor = ancAt s q
            rw [hframe1 q hq hqt]
            rfl
          have htnotL1 : nbr xy off ∉ L1 := by
            intro hmemt
            obtain ⟨o, ho, heq, _⟩ := (hchar _).mp hmemt
            exact hhd o ho heq
          refine ⟨s2, nbr xy off :: L1, ?_, ?_, List.nodup_cons.mpr ⟨htnotL1, hnd⟩,
            ?_, ?_, hokk, ?_, ?_, ?_, hsz2, hsp2, hgp2, hps2, hle2, hfin2⟩
          · rw [List.foldlM_cons, hstep]
            simpa using hfold
          · rw [hq]
            show (s.bfs_queue ++ [nbr xy off]) ++ L1 = s.bfs_queue ++ (nbr xy off :: L1)
            simp
          · simp only [List.length_cons]
            omega
          · intro r
            rw [List.mem_cons, hchar r]
            constructor
            · rintro (rfl | ⟨o, ho, hro, hrinb, hropen, hrnq⟩)
              · exact ⟨off, List.mem_cons_self off rest, rfl, hinb, hopen, hmem⟩
              · refine ⟨o, List.mem_cons_of_mem off ho, hro, hrinb,
                  (hopen1 r hrinb).mp hropen, ?_⟩
                intro hcon
                exact hrnq (List.mem_append_left _ hcon)
            · rintro ⟨o, ho, hro, hrinb, hropen, hrnq⟩
              rcases List.mem_cons.mp ho with rfl | ho2
              · exact Or.inl hro
              · right
                refine ⟨o, ho2, hro, hrinb, (hopen1 r hrinb).mpr hropen, ?_⟩
                show r ∉ s.bfs_queue ++ [nbr xy off]
                rw [List.mem_append]
                rintro (hcon | hcon)
                · exact hrnq hcon
                · have hrt : r = nbr xy off := by simpa using hcon
                  exact hhd o ho2 (hrt ▸ hro)
          · exact fun q hq => (hstates q hq).trans (hstates1 q hq)
          · intro r hr
            rcases List.mem_cons.mp hr with rfl | hr2
            · rw [hancf (nbr xy off) hinb htnotL1]
              exact hanc1t
            · exact hancm r hr2
          · intro q hq hqn
            rw [List.mem_cons] at hqn
            push_neg at hqn
            rw [hancf q hq hqn.2]
            exact hancf1 q hq hqn.1
      · -- target cell already explored: its color fails the state test
        have hstc : ¬ (c.gridState = .UNEXPLORED ∨ c.gridState = .GOAL) :=
          fun hcon => hopen ((openC_iff_cell hc).mpr hcon)
        have hstep : addNeighborsFor bfsOps xy s off = some s :=
          addNF_bfs_closed (by rw [hsz]; exact hinb) hc hstc
        obtain ⟨s2, L, hfold, hq, hnd, hlen, hchar, hokk, hstates, hancm, hancf,
            hsz2, hsp2, hgp2, hps2, hle2, hfin2⟩ := ih s hok hsz hle hpwr
        refine ⟨s2, L, ?_, hq, hnd, le_trans hlen (by simp), ?_, hokk, hstates,
          hancm, hancf, hsz2, hsp2, hgp2, hps2, hle2, hfin2⟩
        · rw [List.foldlM_cons, hstep]
          simpa using hfold
        · intro r
          rw [hchar r]
          constructor
          · rintro ⟨o, ho, hro, hrinb, hropen, hrnq⟩
            exact ⟨o, List.mem_cons_of_mem off ho, hro, hrinb, hropen, hrnq⟩
          · rintro ⟨o, ho, hro, hrinb, hropen, hrnq⟩
            rcases List.mem_cons.mp ho with rfl | ho2
            · exact absurd (hro ▸ hropen) hopen
            · exact ⟨o, ho2, hro, hrinb, hropen, hrnq⟩
    · -- out-of-bounds target
      have hstep : addNeighborsFor bfsOps xy s off = some s :=
        addNF_bfs_oob (fun hcon => hinb (by rw [← hsz]; exact hcon))
      obtain ⟨s2, L, hfold, hq, hnd, hlen, hchar, hokk, hstates, hancm, hancf,
          hsz2, hsp2, hgp2, hps2, hle2, hfin2⟩ := ih s hok hsz hle hpwr
      refine ⟨s2, L, ?_, hq, hnd, le_trans hlen (by simp), ?_, hokk, hstates,
        hancm, hancf, hsz2, hsp2, hgp2, hps2, hle2, hfin2⟩
      · rw [List.foldlM_cons, hstep]
        simpa using hfold
      · intro r
        rw [hchar r]
        constructor
        · rintro ⟨o, ho, hro, hrinb, hropen, hrnq⟩
          exact ⟨o, List.mem_cons_of_mem off ho, hro, hrinb, hropen, hrnq⟩
        · rintro ⟨o, ho, hro, hrinb, hropen, hrnq⟩
          rcases List.mem_cons.mp ho with rfl | ho2
          · exact absurd (hro ▸ hrinb) hinb
          · exact ⟨o, ho2, hro, hrinb, hropen, hrnq⟩

/-- SearchManager.add_neighbors under the breadth-first closures: unpack
last_explored and run the four offsets. -/
lemma add_neighbors_bfs {n : Nat} {xy : Pos} {s : SearchManager}
    (hok : okGrid n s.grid) (hsz : s.size = n) (hle : s.last_explored = some xy) :
    ∃ s2 L, add_neighbors bfsOps s = some s2 ∧
      s2.bfs_queue = s.bfs_queue ++ L ∧
      L.Nodup ∧
      (∀ r : Pos, r ∈ L ↔ ∃ off ∈ neighborOffsets, r = nbr xy off ∧
        inB n r ∧ openC s r ∧ r ∉ s.bfs_queue) ∧
      okGrid n s2.grid ∧
      (∀ q : Pos, inB n q → stateAt s2 q = stateAt s q) ∧
      (∀ r ∈ L, ancAt s2 r = some (some xy)) ∧
      (∀ q : Pos, inB n q → q ∉ L → ancAt s2 q = ancAt s q) ∧
      s2.size = s.size ∧ s2.start_pos = s.start_pos ∧ s2.goal_pos = s.goal_pos ∧
      s2.path_started = s.path_started ∧ s2.last_explored = s.last_explored ∧
      s2.finished = s.finished := by
  obtain ⟨s2, L, hfold, hq, hnd, _, hchar, hokk, hstates, hancm, hancf,
      h10, h11, h12, h13, h14, h15⟩ :=
    addN_fold_bfs neighborOffsets s hok hsz hle (neighborOffsets_pairwise xy)
  refine ⟨s2, L, ?_, hq, hnd, hchar, hokk, hstates, hancm, hancf,
    h10, h11, h12, h13, h14, h15⟩
  rw [add_neighbors]
  simp only [hle]
  exact hfold

lemma Dm_self (a : Pos) : Dm a a = 0 := by
  simp [Dm]

/-- Loop invariant of the running breadth-first search on the obstacle-free
configured grid, where d is the distance from the start of the layer now being
taken from the queue.  The queue splits into the not-yet-taken remainder of
layer d followed by the discovered part of layer d + 1; cells closer than d are
closed (explored), cells farther than d are still open, every open in-bounds
neighbor of a closed cell is queued, and ancestors step the distance down by
one hop toward the start. -/
structure Inv (n : Nat) (st gl : Pos) (d : Nat) (s : SearchManager) : Prop where
  hok : okGrid n s.grid
  hsz : s.size = n
  hstp : s.start_pos = some st
  hglp : s.goal_pos = some gl
  hps : s.path_started = true
  hfin : s.finished = false
  hdpos : 1 ≤ d
  hstin : inB n st
  hglin : inB n gl
  hle : ∃ le, s.last_explored = some le ∧ inB n le ∧ closedC s le
  hnodup : s.bfs_queue.Nodup
  hsplit : ∃ Q1 Q2, s.bfs_queue = Q1 ++ Q2 ∧
    (∀ r ∈ Q1, Dm st r = d) ∧ (∀ r ∈ Q2, Dm st r = d + 1)
  hqmem : ∀ r ∈ s.bfs_queue, inB n r ∧ openC s r
  hsmall : ∀ q : Pos, inB n q → Dm st q < d → closedC s q
  hlayer : ∀ q : Pos, inB n q → Dm st q = d → q ∈ s.bfs_queue ∨ closedC s q
  hfar : ∀ q : Pos, inB n q → d < Dm st q → openC s q
  hexp : ∀ q : Pos, inB n q → closedC s q → ∀ off ∈ neighborOffsets,
    inB n (nbr q off) → openC s (nbr q off) → nbr q off ∈ s.bfs_queue
  hanc : ∀ q : Pos, inB n q → q ≠ st → (closedC s q ∨ q ∈ s.bfs_queue) →
    ∃ a, ancAt s q = some (some a) ∧ inB n a ∧ closedC s a ∧ Dm st a + 1 = Dm st q
  hglst : stateAt s gl = some .GOAL

lemma inv_gl_open {n : Nat} {st gl : Pos} {d : Nat} {s : SearchManager}
    (h : Inv n st gl d s) : openC s gl := Or.inr h.hglst

lemma inv_d_le {n : Nat} {st gl : Pos} {d : Nat} {s : SearchManager}
    (h : Inv n st gl d s) : d ≤ Dm st gl := by
  by_contra hcon
  exact closedC_not_openC (h.hsmall gl h.hglin (by omega)) (inv_gl_open h)

/-- While the invariant holds the goal is still undiscovered, so the frontier
cannot be empty: a queued cell exists on the geodesic layer below the goal. -/
lemma inv_queue_ne {n : Nat} {st gl : Pos} {d : Nat} {s : SearchManager}
    (h : Inv n st gl d s) : s.bfs_queue ≠ [] := by
  intro hq0
  have hall : ∀ q : Pos, inB n q → Dm st q = d → closedC s q := by
    intro q hq hdq
    rcases h.hlayer q hq hdq with hmem | hcl
    · rw [hq0] at hmem
      simp at hmem
    · exact hcl
  have hdle : d ≤ Dm st gl := inv_d_le h
  by_cases hdeq : d = Dm st gl
  · exact closedC_not_openC (hall gl h.hglin hdeq.symm) (inv_gl_open h)
  · obtain ⟨p, hpin, hpd⟩ := Dm_geo2 h.hstin h.hglin (d + 1) (by omega)
    have hpopen : openC s p := h.hfar p hpin (by omega)
    obtain ⟨off, hoff, off2, hoff2, hqin, hqd, hback⟩ :=
      Dm_geo1 h.hstin hpin (by omega)
    have hb2 : nbr (nbr p off) off2 = p := hback
    have hqd2 : Dm st (nbr p off) + 1 = Dm st p := hqd
    have hcl : closedC s (nbr p off) := hall _ hqin (by omega)
    have hmem := h.hexp (nbr p off) hqin hcl off2 hoff2
      (by rw [hb2]; exact hpin) (by rw [hb2]; exact hpopen)
    rw [hb2, hq0] at hmem
    simp at hmem

/-- When no layer-d cell is queued any more the invariant relabels to the next
layer: geometry plus expansion completeness show every layer-(d+1) cell is
already queued or (vacuously) closed. -/
lemma inv_relabel {n : Nat} {st gl : Pos} {d : Nat} {s : SearchManager}
    (h : Inv n st gl d s)
    (hall : ∀ r ∈ s.bfs_queue, Dm st r = d + 1) : Inv n st gl (d + 1) s := by
  refine ⟨h.hok, h.hsz, h.hstp, h.hglp, h.hps, h.hfin, by omega, h.hstin, h.hglin,
    h.hle, h.hnodup, ⟨s.bfs_queue, [], by simp, hall, by simp⟩, h.hqmem, ?_, ?_, ?_,
    h.hexp, h.hanc, h.hglst⟩
  · intro q hq hdq
    by_cases hcase : Dm st q < d
    · exact h.hsmall q hq hcase
    · have hdq2 : Dm st q = d := by omega
      rcases h.hlayer q hq hdq2 with hmem | hcl
      · exact absurd (hall q hmem) (by omega)
      · exact hcl
  · intro q hq hdq
    by_cases hmem : q ∈ s.bfs_queue
    · exact Or.inl hmem
    · obtain ⟨off, hoff, off2, hoff2, hpin, hpd, hback⟩ :=
        Dm_geo1 h.hstin hq (by omega)
      have hb2 : nbr (nbr q off) off2 = q := hback
      have hpd2 : Dm st (nbr q off) + 1 = Dm st q := hpd
      have hcl : closedC s (nbr q off) := by
        have hdq2 : Dm st (nbr q off) = d := by omega
        rcases h.hlayer _ hpin hdq2 with hm | hc
        · exact absurd (hall _ hm) (by omega)
        · exact hc
      have hopen : openC s q := h.hfar q hq (by omega)
      have hmem2 := h.hexp (nbr q off) hpin hcl off2 hoff2
        (by rw [hb2]; exact hq) (by rw [hb2]; exact hopen)
      rw [hb2] at hmem2
      exact Or.inl hmem2
  · intro q hq hdq
    exact h.hfar q hq (by omega)

/-- Normal form of the invariant for one step: a layer index whose queue starts
with a layer-d cell. -/
lemma inv_first_layer {n : Nat} {st gl : Pos} {d : Nat} {s : SearchManager}
    (h : Inv n st gl d s) :
    ∃ d2 q rest, d ≤ d2 ∧ Inv n st gl d2 s ∧ s.bfs_queue = q :: rest ∧
      Dm st q = d2 ∧
      (∀ r ∈ rest, Dm st r = d2 ∨ Dm st r = d2 + 1) ∧
      ∃ Q1 Q2, rest = Q1 ++ Q2 ∧ (∀ r ∈ Q1, Dm st r = d2) ∧
        (∀ r ∈ Q2, Dm st r = d2 + 1) := by
  obtain ⟨Q1, Q2, hq, hd1, hd2⟩ := h.hsplit
  cases Q1 with
  | cons a Q1r =>
    refine ⟨d, a, Q1r ++ Q2, le_refl d, h, by simpa using hq,
      hd1 a (by simp), ?_, Q1r, Q2, rfl, fun r hr => hd1 r (by simp [hr]),
      hd2⟩
    intro r hr
    rcases List.mem_append.mp hr with hr1 | hr2
    · exact Or.inl (hd1 r (by simp [hr1]))
    · exact Or.inr (hd2 r hr2)
  | nil =>
    have hall : ∀ r ∈ s.bfs_queue, Dm st r = d + 1 := by
      intro r hr
      rw [hq] at hr
      exact hd2 r (by simpa using hr)
    have h2 := inv_relabel h hall
    have hne := inv_queue_ne h2
    cases hqe : s.bfs_queue with
    | nil => exact absurd hqe hne
    | cons a rest =>
      refine ⟨d + 1, a, rest, by omega, h2, rfl, hall a (by rw [hqe]; simp), ?_,
        rest, [], by simp, ?_, by simp⟩
      · intro r hr
        exact Or.inl (hall r (by rw [hqe]; simp [hr]))
      · intro r hr
        exact hall r (by rw [hqe]; simp [hr])

lemma Dm_bound {n : Nat} {a b : Pos} (ha : inB n a) (hb : inB n b) :
    Dm a b ≤ 2 * n := by
  obtain ⟨h1, h2, h3, h4⟩ := ha
  obtain ⟨h5, h6, h7, h8⟩ := hb
  unfold Dm
  omega

lemma inB_two {n : Nat} {a b : Pos} (ha : inB n a) (hb : inB n b) (hne : a ≠ b) :
    2 ≤ n := by
  by_contra hcon
  obtain ⟨h1, h2, h3, h4⟩ := ha
  obtain ⟨h5, h6, h7, h8⟩ := hb
  exact hne (Prod.ext (by omega) (by omega))

/-- Effect of the demotion step of explore_next on a state whose last explored
cell is in bounds and closed: open and closed cells are the same afterwards,
ancestors are untouched, open cells keep their exact color, and only the grid
changes. -/
lemma unset_inv {n : Nat} {s : SearchManager} {le : Pos}
    (hok : okGrid n s.grid) (hles : s.last_explored = some le)
    (hlein : inB n le) (hlecl : closedC s le) :
    ∃ s1, unsetLastSeen s = some s1 ∧ okGrid n s1.grid ∧
      (∀ q : Pos, inB n q → (openC s1 q ↔ openC s q)) ∧
      (∀ q : Pos, inB n q → (closedC s1 q ↔ closedC s q)) ∧
      (∀ q : Pos, inB n q → ancAt s1 q = ancAt s q) ∧
      (∀ q : Pos, inB n q → openC s q → stateAt s1 q = stateAt s q) ∧
      s1.size = s.size ∧ s1.bfs_queue = s.bfs_queue ∧ s1.start_pos = s.start_pos ∧
      s1.goal_pos = s.goal_pos ∧ s1.path_started = s.path_started ∧
      s1.finished = s.finished ∧ s1.last_explored = s.last_explored := by
  by_cases hcase : s.last_explored = s.start_pos
  · exact ⟨s, unsetLastSeen_of_eq hcase, hok, fun q _ => Iff.rfl, fun q _ => Iff.rfl,
      fun q _ => rfl, fun q _ _ => rfl, rfl, rfl, rfl, rfl, rfl, rfl, rfl⟩
  · obtain ⟨c, hc⟩ := gridGetCell_inb hok hlein
    obtain ⟨g1, hmod, hget1, hlen1, hokf⟩ :=
      gridModify_of_get (fun cc => { cc with gridState := .SEEN }) hc
    have hset : gridSetGridState s.grid le .SEEN = some g1 := hmod
    obtain ⟨hok1, hstle, hancle, hframe⟩ := setState_effects hok hlein hset
    have hst1 : stateAt ({ s with grid := g1 } : SearchManager) le = some .SEEN := hstle
    have hstf : ∀ q : Pos, inB n q → q ≠ le →
        stateAt ({ s with grid := g1 } : SearchManager) q = stateAt s q := by
      intro q hq hql
      show (gridGetCell g1 q).map Cell.gridState = stateAt s q
      rw [hframe q hq hql]
      rfl
    refine ⟨{ s with grid := g1 }, unsetLastSeen_of_ne hcase hles hset, hok1,
      ?_, ?_, ?_, ?_, rfl, rfl, rfl, rfl, rfl, rfl, rfl⟩
    · intro q hq
      by_cases hql : q = le
      · subst hql
        constructor
        · intro hcon
          rcases hcon with hcon | hcon <;> rw [hst1] at hcon <;> simp at hcon
        · intro hcon
          exact absurd hcon fun x => closedC_not_openC hlecl x
      · unfold openC
        rw [hstf q hq hql]
    · intro q hq
      by_cases hql : q = le
      · subst hql
        constructor
        · intro _
          exact hlecl
        · intro _
          exact Or.inr (Or.inr hst1)
      · unfold closedC
        rw [hstf q hq hql]
    · intro q hq
      by_cases hql : q = le
      · subst hql
        show (gridGetCell g1 q).map Cell.ancestor = ancAt s q
        rw [hancle]
        rfl
      · show (gridGetCell g1 q).map Cell.ancestor = ancAt s q
        rw [hframe q hq hql]
        rfl
    · intro q hq hqopen
      have hql : q ≠ le := fun hcon =>
        closedC_not_openC (hcon ▸ hlecl) hqopen
      exact hstf q hq hql

/-- Effect of taking the front of the FIFO queue and coloring it CURRENT. -/
lemma markCurrent_inv {n : Nat} {s1 : SearchManager} {qf : Pos} {rest : List Pos}
    (hok : okGrid n s1.grid) (hqin : inB n qf) :
    ∃ s3, markCurrent { s1 with bfs_queue := rest } qf = some s3 ∧ okGrid n s3.grid ∧
      stateAt s3 qf = some .CURRENT ∧
      (∀ q : Pos, inB n q → q ≠ qf → stateAt s3 q = stateAt s1 q) ∧
      (∀ q : Pos, inB n q → ancAt s3 q = ancAt s1 q) ∧
      s3.bfs_queue = rest ∧ s3.last_explored = some qf ∧
      s3.size = s1.size ∧ s3.start_pos = s1.start_pos ∧ s3.goal_pos = s1.goal_pos ∧
      s3.path_started = s1.path_started ∧ s3.finished = s1.finished := by
  obtain ⟨cq, hcq⟩ := gridGetCell_inb hok hqin
  obtain ⟨g2, hmod2, hget2, hlen2, hokf2⟩ :=
    gridModify_of_get (fun cc => { cc with gridState := .CURRENT }) hcq
  have hset2 : gridSetGridState s1.grid qf .CURRENT = some g2 := hmod2
  obtain ⟨hok2, hstq2, hancq2, hframe2⟩ := setState_effects hok hqin hset2
  refine ⟨{ s1 with bfs_queue := rest, grid := g2, last_explored := some qf, cells_visited := s1.cells_visited + 1 },
    ?_, hok2, hstq2, ?_, ?_, rfl, rfl, rfl, rfl, rfl, rfl, rfl⟩
  · rw [markCurrent]
    have hset2b : gridSetGridState ({ s1 with bfs_queue := rest } : SearchManager).grid
        qf .CURRENT = some g2 := hset2
    rw [hset2b, Option.map_some']
  · intro q hq hqn
    show (gridGetCell g2 q).map Cell.gridState = stateAt s1 q
    rw [hframe2 q hq hqn]
    rfl
  · intro q hq
    by_cases hqn : q = qf
    · subst hqn
      show (gridGetCell g2 q).map Cell.ancestor = ancAt s1 q
      rw [hancq2]
      rfl
    · show (gridGetCell g2 q).map Cell.ancestor = ancAt s1 q
      rw [hframe2 q hq hqn]
      rfl

/-- The demote-pop-mark prefix shared by every running breadth-first step on an
invariant state whose queue starts with qf: the previous cell is demoted, qf is
taken from the queue and colored CURRENT, and all other observations of the
state survive (ancestors everywhere, colors away from qf, exact colors of open
cells). -/
lemma pop_mark {n : Nat} {st gl : Pos} {d2 : Nat} {s : SearchManager}
    {qf : Pos} {rest : List Pos}
    (h3 : Inv n st gl d2 s) (hqe : s.bfs_queue = qf :: rest) :
    ∃ s1 s3, unsetLastSeen s = some s1 ∧
      ¬ (bfsOps.flen s1 < 1) ∧
      bfsOps.getNext s1 = some (qf, { s1 with bfs_queue := rest }) ∧
      markCurrent { s1 with bfs_queue := rest } qf = some s3 ∧
      okGrid n s3.grid ∧ s3.size = n ∧ s3.start_pos = some st ∧
      s3.goal_pos = some gl ∧ s3.path_started = true ∧ s3.finished = false ∧
      s3.bfs_queue = rest ∧ s3.last_explored = some qf ∧
      stateAt s3 qf = some .CURRENT ∧
      (∀ q : Pos, inB n q → ancAt s3 q = ancAt s q) ∧
      (∀ q : Pos, inB n q → q ≠ qf → (openC s3 q ↔ openC s q)) ∧
      (∀ q : Pos, inB n q → q ≠ qf → (closedC s3 q ↔ closedC s q)) ∧
      (∀ q : Pos, inB n q → q ≠ qf → openC s q → stateAt s3 q = stateAt s q) := by
  obtain ⟨le, hles, hlein, hlecl⟩ := h3.hle
  obtain ⟨s1, hu, hok1, hopen1, hclosed1, hanc1, hstates1, hsz1, hq1, hsp1, hgp1,
    hps1, hfin1, hle1⟩ := unset_inv h3.hok hles hlein hlecl
  have hqmemf := h3.hqmem qf (by rw [hqe]; simp)
  have hqin : inB n qf := hqmemf.1
  obtain ⟨s3, hmc, hok3, hstq3, hstf3, hanc3, hq3, hle3, hsz3, hsp3, hgp3, hps3,
    hfin3⟩ := @markCurrent_inv n s1 qf rest hok1 hqin
  have hq1e : s1.bfs_queue = qf :: rest := by rw [hq1, hqe]
  have hflen : ¬ (bfsOps.flen s1 < 1) := by
    show ¬ (s1.bfs_queue.length < 1)
    rw [hq1e]
    simp
  have hgn : bfsOps.getNext s1 = some (qf, { s1 with bfs_queue := rest }) := by
    show (match s1.bfs_queue with
      | [] => none
      | p :: r => some (p, { s1 with bfs_queue := r })) = _
    rw [hq1e]
  refine ⟨s1, s3, hu, hflen, hgn, hmc, hok3, hsz3.trans (hsz1.trans h3.hsz),
    hsp3.trans (hsp1.trans h3.hstp), hgp3.trans (hgp1.trans h3.hglp),
    hps3.trans (hps1.trans h3.hps), hfin3.trans (hfin1.trans h3.hfin),
    hq3, hle3, hstq3, ?_, ?_, ?_, ?_⟩
  · exact fun q hq => (hanc3 q hq).trans (hanc1 q hq)
  · intro q hq hne
    have e3 : stateAt s3 q = stateAt s1 q := hstf3 q hq hne
    have h31 : openC s3 q ↔ openC s1 q := by
      unfold openC
      rw [e3]
    exact h31.trans (hopen1 q hq)
  · intro q hq hne
    have e3 : stateAt s3 q = stateAt s1 q := hstf3 q hq hne
    have h31 : closedC s3 q ↔ closedC s1 q := by
      unfold closedC
      rw [e3]
    exact h31.trans (hclosed1 q hq)
  · intro q hq hne hqopen
    exact (hstf3 q hq hne).trans (hstates1 q hq hqopen)

/-- One running breadth-first step that pops a non-goal cell: the step succeeds,
the invariant survives at the same layer index, and one more open cell has been
closed. -/
lemma bfs_step_continue {n : Nat} {st gl : Pos} {d2 : Nat} {s : SearchManager}
    {qf : Pos} {rest : List Pos} {Q1r Q2r : List Pos}
    (h3 : Inv n st gl d2 s) (hqe : s.bfs_queue = qf :: rest)
    (hqd : Dm st qf = d2) (hrsplit : rest = Q1r ++ Q2r)
    (hQ1r : ∀ r ∈ Q1r, Dm st r = d2) (hQ2r : ∀ r ∈ Q2r, Dm st r = d2 + 1)
    (hqfgl : qf ≠ gl) :
    ∃ s4, bfs s = some s4 ∧ Inv n st gl d2 s4 ∧ openCnt n s4 < openCnt n s := by
  obtain ⟨s1, s3, hu, hflen, hgn, hmc, hok3, hsz3, hsp3v, hgp3v, hps3v, hfin3v,
    hq3, hle3, hstq3, hancs3, hopiff, hcliff, hstopen3⟩ := pop_mark h3 hqe
  have hqmemf := h3.hqmem qf (by rw [hqe]; simp)
  have hqin : inB n qf := hqmemf.1
  have hqopen : openC s qf := hqmemf.2
  have hqfst : qf ≠ st := by
    intro hcon
    rw [hcon, Dm_self] at hqd
    have := h3.hdpos
    omega
  have hnodups := h3.hnodup
  rw [hqe] at hnodups
  have hqfrest : qf ∉ rest := (List.nodup_cons.mp hnodups).1
  have hrestnd : rest.Nodup := (List.nodup_cons.mp hnodups).2
  obtain ⟨c3, hc3⟩ : ∃ c3, gridGetCell s3.grid qf = some c3 := by
    rcases hg : gridGetCell s3.grid qf with _ | c3
    · unfold stateAt at hstq3
      rw [hg] at hstq3
      simp at hstq3
    · exact ⟨c3, rfl⟩
  have hc3st : c3.gridState = .CURRENT := by
    unfold stateAt at hstq3
    rw [hc3, Option.map_some'] at hstq3
    exact Option.some.inj hstq3
  have hfound : ¬ (s3.last_explored = s3.goal_pos) := by
    rw [hle3, hgp3v]
    simp [hqfgl]
  have hrun : ∀ k, exploreRunning bfsOps k s = some (true, s3, 1) := by
    intro k
    rw [exploreRunning]
    simp only [hu]
    rw [if_neg hflen]
    simp only [hgn, hmc]
    rw [if_neg hfound]
    simp only [hc3]
    rw [if_neg (by rw [hc3st]; simp)]
  have himpl : bfs s = add_neighbors bfsOps s3 := by
    show search_impl bfsOps s = _
    rw [search_impl]
    have hfl : bfsOps.flen s + 2 = (bfsOps.flen s + 1) + 1 := rfl
    rw [hfl, exploreNextF_succ_running h3.hfin h3.hps, hrun _]
    rfl
  obtain ⟨s4, L, hadd, hq4, hndL, hchar, hok4, hstates4, hancm4, hancf4, hsz4,
    hsp4, hgp4, hps4, hle4, hfin4⟩ := @add_neighbors_bfs n qf s3 hok3 hsz3 hle3
  have hopen43 : ∀ q : Pos, inB n q → (openC s4 q ↔ openC s3 q) := by
    intro q hq
    unfold openC
    rw [hstates4 q hq]
  have hclosed43 : ∀ q : Pos, inB n q → (closedC s4 q ↔ closedC s3 q) := by
    intro q hq
    unfold closedC
    rw [hstates4 q hq]
  have hopen_ne : ∀ q : Pos, inB n q → q ≠ qf → (openC s4 q ↔ openC s q) :=
    fun q hq hne => (hopen43 q hq).trans (hopiff q hq hne)
  have hclosed_ne : ∀ q : Pos, inB n q → q ≠ qf → (closedC s4 q ↔ closedC s q) :=
    fun q hq hne => (hclosed43 q hq).trans (hcliff q hq hne)
  have hopen_qf : ¬ openC s4 qf := by
    intro hcon
    rcases (hopen43 qf hqin).mp hcon with hx | hx <;> rw [hstq3] at hx <;> simp at hx
  have hclosed_qf : closedC s4 qf := (hclosed43 qf hqin).mpr (Or.inr (Or.inl hstq3))
  have hanc_pres : ∀ q : Pos, inB n q → q ∉ L → ancAt s4 q = ancAt s q :=
    fun q hq hqL => (hancf4 q hq hqL).trans (hancs3 q hq)
  have hqf_notin_L : qf ∉ L := by
    intro hcon
    obtain ⟨off, hoff, heq, hin, hop3, hnq⟩ := (hchar qf).mp hcon
    rcases hop3 with hx | hx <;> rw [hstq3] at hx <;> simp at hx
  have hLd : ∀ r ∈ L, Dm st r = d2 + 1 := by
    intro r hr
    obtain ⟨off, hoff, hre, hin, hop3, hnq⟩ := (hchar r).mp hr
    subst hre
    have hdn : Dm st (nbr qf off) = Dm st qf + 1 ∨
        Dm st (nbr qf off) + 1 = Dm st qf := Dm_neighbor hoff
    rcases hdn with hcase | hcase
    · rw [hqd] at hcase
      exact hcase
    · exfalso
      have hrne : nbr qf off ≠ qf := by
        intro hcon
        rw [hcon] at hcase
        omega
      have hropens : openC s (nbr qf off) := (hopiff _ hin hrne).mp hop3
      have hlt : Dm st (nbr qf off) < d2 := by omega
      exact closedC_not_openC (h3.hsmall _ hin hlt) hropens
  have hLmem : ∀ r ∈ L, inB n r ∧ openC s4 r := by
    intro r hr
    obtain ⟨off, hoff, hre, hin, hop3, hnq⟩ := (hchar r).mp hr
    exact ⟨hin, (hopen43 r hin).mpr hop3⟩
  have hLnotrest : ∀ r ∈ L, r ∉ rest := by
    intro r hr
    obtain ⟨off, hoff, hre, hin, hop3, hnq⟩ := (hchar r).mp hr
    rw [hq3] at hnq
    exact hnq
  have hq4r : s4.bfs_queue = rest ++ L := by rw [hq4, hq3]
  have hopen4 : ∀ q : Pos, inB n q → (openC s4 q ↔ openC s q ∧ q ≠ qf) := by
    intro q hq
    by_cases hne : q = qf
    · subst hne
      constructor
      · intro hcon
        exact absurd hcon hopen_qf
      · rintro ⟨_, hcon⟩
        exact absurd rfl hcon
    · rw [hopen_ne q hq hne]
      simp [hne]
  refine ⟨s4, himpl.trans hadd, ?_, openCnt_lt hqin hqopen hopen4⟩
  refine ⟨hok4, hsz4.trans hsz3, hsp4.trans hsp3v, hgp4.trans hgp3v,
    hps4.trans hps3v, hfin4.trans hfin3v, h3.hdpos, h3.hstin, h3.hglin,
    ⟨qf, hle4.trans hle3, hqin, hclosed_qf⟩, ?_, ?_, ?_, ?_, ?_, ?_, ?_, ?_, ?_⟩
  · rw [hq4r]
    exact List.nodup_append.mpr ⟨hrestnd, hndL, fun a ha hcon => hLnotrest a hcon ha⟩
  · refine ⟨Q1r, Q2r ++ L, by rw [hq4r, hrsplit, List.append_assoc], hQ1r, ?_⟩
    intro r hr
    rcases List.mem_append.mp hr with hm | hm
    · exact hQ2r r hm
    · exact hLd r hm
  · intro r hr
    rw [hq4r] at hr
    rcases List.mem_append.mp hr with hm | hm
    · have hmem := h3.hqmem r (by rw [hqe]; simp [hm])
      have hne : r ≠ qf := fun hcon => hqfrest (hcon ▸ hm)
      exact ⟨hmem.1, (hopen_ne r hmem.1 hne).mpr hmem.2⟩
    · exact hLmem r hm
  · intro q hq hlt
    have hne : q ≠ qf := by
      intro hcon
      rw [hcon, hqd] at hlt
      omega
    exact (hclosed_ne q hq hne).mpr (h3.hsmall q hq hlt)
  · intro q hq hdq
    rcases h3.hlayer q hq hdq with hmem | hcl
    · rw [hqe] at hmem
      rcases List.mem_cons.mp hmem with rfl | hm
      · exact Or.inr hclosed_qf
      · refine Or.inl ?_
        rw [hq4r]
        exact List.mem_append_left _ hm
    · have hne : q ≠ qf := fun hcon => closedC_not_openC (hcon ▸ hcl) hqopen
      exact Or.inr ((hclosed_ne q hq hne).mpr hcl)
  · intro q hq hgt
    have hne : q ≠ qf := by
      intro hcon
      rw [hcon, hqd] at hgt
      omega
    exact (hopen_ne q hq hne).mpr (h3.hfar q hq hgt)
  · intro q hq hclq off hoff htin htopen
    have htne : nbr q off ≠ qf := fun hcon => hopen_qf (hcon ▸ htopen)
    have htopenS : openC s (nbr q off) := (hopen_ne _ htin htne).mp htopen
    by_cases hqqf : q = qf
    · subst hqqf
      by_cases hmem : nbr q off ∈ rest
      · rw [hq4r]
        exact List.mem_append_left _ hmem
      · have hopenS3 : openC s3 (nbr q off) := (hopiff _ htin htne).mpr htopenS
        have hmemL : nbr q off ∈ L :=
          (hchar _).mpr ⟨off, hoff, rfl, htin, hopenS3, by rw [hq3]; exact hmem⟩
        rw [hq4r]
        exact List.mem_append_right _ hmemL
    · have hclqS : closedC s q := (hclosed_ne q hq hqqf).mp hclq
      have hmem := h3.hexp q hq hclqS off hoff htin htopenS
      rw [hqe] at hmem
      rcases List.mem_cons.mp hmem with hcon | hm
      · exact absurd hcon htne
      · rw [hq4r]
        exact List.mem_append_left _ hm
  · intro q hq hqst hdisj
    by_cases hqqf : q = qf
    · subst hqqf
      obtain ⟨a, hancs, hain, hacl, hdm⟩ :=
        h3.hanc q hqin hqst (Or.inr (by rw [hqe]; simp))
      refine ⟨a, ?_, hain, ?_, hdm⟩
      · rw [hanc_pres q hqin hqf_notin_L]
        exact hancs
      · have hane : a ≠ q := fun hcon => closedC_not_openC (hcon ▸ hacl) hqopen
        exact (hclosed_ne a hain hane).mpr hacl
    · by_cases hqL : q ∈ L
      · refine ⟨qf, hancm4 q hqL, hqin, hclosed_qf, ?_⟩
        rw [hqd]
        have := hLd q hqL
        omega
      · have hPs : closedC s q ∨ q ∈ s.bfs_queue := by
          rcases hdisj with hcl | hmem
          · exact Or.inl ((hclosed_ne q hq hqqf).mp hcl)
          · rw [hq4r] at hmem
            rcases List.mem_append.mp hmem with hm | hm
            · exact Or.inr (by rw [hqe]; simp [hm])
            · exact absurd hm hqL
        obtain ⟨a, hancs, hain, hacl, hdm⟩ := h3.hanc q hq hqst hPs
        refine ⟨a, by rw [hanc_pres q hq hqL]; exact hancs, hain, ?_, hdm⟩
        have hane : a ≠ qf := fun hcon => closedC_not_openC (hcon ▸ hacl) hqopen
        exact (hclosed_ne a hain hane).mpr hacl
  · have hglqf : gl ≠ qf := fun hcon => hqfgl hcon.symm
    rw [hstates4 gl h3.hglin, hstopen3 gl h3.hglin hglqf (inv_gl_open h3)]
    exact h3.hglst

/-- What the step that pops the goal leaves behind: a finished state over the
same grid size whose pathLength at the goal is exactly the Manhattan distance
from the start. -/
def FinalOk (n : Nat) (st gl : Pos) (s4 : SearchManager) : Prop :=
  s4.finished = true ∧ s4.goal_pos = some gl ∧ s4.size = n ∧
  pathLength s4 (some gl) = .ret (Dm st gl)

/-- One running breadth-first step that pops the goal: the goal test fires, the
path is recolored by the terminating ancestor walk, and the resulting finished
state reports pathLength(goal) equal to the Manhattan distance from the start. -/
lemma bfs_step_found {n : Nat} {st gl : Pos} {d2 : Nat} {s : SearchManager}
    {rest : List Pos}
    (h3 : Inv n st gl d2 s) (hqe : s.bfs_queue = gl :: rest)
    (hqd : Dm st gl = d2) :
    ∃ s4, bfs s = some s4 ∧ FinalOk n st gl s4 := by
  obtain ⟨s1, s3, hu, hflen, hgn, hmc, hok3, hsz3, hsp3v, hgp3v, hps3v, hfin3v,
    hq3, hle3, hstq3, hancs3, hopiff, hcliff, hstopen3⟩ := pop_mark h3 hqe
  have hglst : gl ≠ st := by
    intro hcon
    rw [hcon, Dm_self] at hqd
    have := h3.hdpos
    omega
  obtain ⟨a0, hanc0, ha0in, ha0cl, hdm0⟩ :=
    h3.hanc gl h3.hglin hglst (Or.inr (by rw [hqe]; simp))
  obtain ⟨c3, hc3⟩ : ∃ c3, gridGetCell s3.grid gl = some c3 := by
    rcases hg : gridGetCell s3.grid gl with _ | c3
    · unfold stateAt at hstq3
      rw [hg] at hstq3
      simp at hstq3
    · exact ⟨c3, rfl⟩
  have hc3anc : c3.ancestor = some a0 := by
    have h3a : ancAt s3 gl = some (some a0) := by
      rw [hancs3 gl h3.hglin]
      exact hanc0
    unfold ancAt at h3a
    rw [hc3, Option.map_some'] at h3a
    exact Option.some.inj h3a
  have hn2 : 2 ≤ n := inB_two h3.hstin h3.hglin (fun hcon => hglst hcon.symm)
  have hDb : Dm st gl ≤ 2 * n := Dm_bound h3.hstin h3.hglin
  have h2nle : 2 * n ≤ n * n := Nat.mul_le_mul_right n hn2
  have hA3 : ∀ q : Pos, inB n q → (gridGetCell s3.grid q).map Cell.ancestor =
      some (((gridGetCell s3.grid q).map Cell.ancestor).getD none) := by
    intro q hq
    obtain ⟨c, hc⟩ := gridGetCell_inb hok3 hq
    rw [hc]
    rfl
  have hchainA : ∀ q : Pos, inB n q → (closedC s q ∨ q ∈ s.bfs_queue) → q ≠ st →
      ∃ a, ((gridGetCell s3.grid q).map Cell.ancestor).getD none = some a ∧
        inB n a ∧ (closedC s a ∨ a ∈ s.bfs_queue) ∧ Dm st a + 1 = Dm st q := by
    intro q hq hP hqst
    obtain ⟨a, hanc, hain, hacl, hdm⟩ := h3.hanc q hq hqst hP
    refine ⟨a, ?_, hain, Or.inl hacl, hdm⟩
    have h3q : ancAt s3 q = some (some a) := by
      rw [hancs3 q hq]
      exact hanc
    have hmap : (gridGetCell s3.grid q).map Cell.ancestor = some (some a) := h3q
    rw [hmap]
    rfl
  obtain ⟨g2, hcw, hokg2, hA2⟩ :=
    colorWalkF_chain (fun r : Pos => ((gridGetCell s3.grid r).map Cell.ancestor).getD none)
      (fun r : Pos => closedC s r ∨ r ∈ s.bfs_queue) hchainA (Dm st a0) s3.grid a0
      (n * n + 2) hok3 hA3 ha0in (Or.inl ha0cl) (le_refl _) (by omega)
  have hcolor : colorPath s3 = .ret g2 := by
    rw [colorPath]
    simp only [hle3, hc3, hc3anc]
    rw [hsp3v]
    have hplf : plFuel s3 = n * n + 2 := by
      unfold plFuel
      rw [hsz3]
    rw [hplf]
    exact hcw
  have hfound : s3.last_explored = s3.goal_pos := by rw [hle3, hgp3v]
  have hrun : ∀ k, exploreRunning bfsOps k s =
      some (false, { s3 with grid := g2, finished := true }, 1) := by
    intro k
    rw [exploreRunning]
    simp only [hu]
    rw [if_neg hflen]
    simp only [hgn, hmc]
    rw [if_pos hfound]
    simp only [hcolor]
  have himpl : bfs s = some { s3 with grid := g2, finished := true } := by
    show search_impl bfsOps s = _
    rw [search_impl]
    have hfl : bfsOps.flen s + 2 = (bfsOps.flen s + 1) + 1 := rfl
    rw [hfl, exploreNextF_succ_running h3.hfin h3.hps, hrun _]
    rfl
  refine ⟨{ s3 with grid := g2, finished := true }, himpl, rfl, hgp3v, hsz3, ?_⟩
  have hst4 : ({ s3 with grid := g2, finished := true } : SearchManager).start_pos =
      some st := hsp3v
  have hsz4 : ({ s3 with grid := g2, finished := true } : SearchManager).size = n := hsz3
  have hchain4 : ∀ q : Pos, inB n q → (closedC s q ∨ q ∈ s.bfs_queue) → q ≠ st →
      ∃ a, ancAt ({ s3 with grid := g2, finished := true } : SearchManager) q =
        some (some a) ∧ inB n a ∧ (closedC s a ∨ a ∈ s.bfs_queue) ∧
        Dm st a + 1 = Dm st q := by
    intro q hq hP hqst
    obtain ⟨a, hAa, hain, haP, hdm⟩ := hchainA q hq hP hqst
    refine ⟨a, ?_, hain, haP, hdm⟩
    show (gridGetCell g2 q).map Cell.ancestor = some (some a)
    rw [hA2 q hq]
    exact congrArg some hAa
  have hplf4 : plFuel ({ s3 with grid := g2, finished := true } : SearchManager) =
      n * n + 2 := by
    unfold plFuel
    rw [hsz4]
  rw [pathLength, hplf4]
  have hret := pathLengthF_chain (fun r : Pos => closedC s r ∨ r ∈ s.bfs_queue)
    hst4 hchain4 (Dm st gl) gl (n * n + 2) 0 h3.hglin
    (Or.inr (by rw [hqe]; simp)) (le_refl _) (by omega)
  rw [hret]
  congr 1
  omega

/-- One running breadth-first step on an invariant state: either the goal is
popped and the run finishes with the exact path length, or the invariant
survives with one more cell closed. -/
lemma bfs_step {n : Nat} {st gl : Pos} {d : Nat} {s : SearchManager}
    (h : Inv n st gl d s) :
    (∃ s4, bfs s = some s4 ∧ FinalOk n st gl s4) ∨
    (∃ d4 s4, bfs s = some s4 ∧ Inv n st gl d4 s4 ∧ openCnt n s4 < openCnt n s) := by
  obtain ⟨d2, qf, rest, hdle, h3, hqe, hqd, hrestd, Q1r, Q2r, hrsplit, hQ1r, hQ2r⟩ :=
    inv_first_layer h
  by_cases hqfgl : qf = gl
  · subst hqfgl
    exact Or.inl (bfs_step_found h3 hqe hqd)
  · obtain ⟨s4, hb, hinv, hcnt⟩ := bfs_step_continue h3 hqe hqd hrsplit hQ1r hQ2r hqfgl
    exact Or.inr ⟨d2, s4, hb, hinv, hcnt⟩

lemma runLoopAux_finished {algo : Algorithm} {s : SearchManager}
    (h : s.finished = true) : ∀ f, runLoopAux algo f s = some s := by
  intro f
  cases f with
  | zero => rfl
  | succ k => rw [runLoopAux, if_pos h]

/-- The run-to-completion loop started on an invariant state with enough fuel
reaches the finished state with the exact path length: the open-cell count
strictly decreases at every non-final step. -/
lemma bfs_loop {n : Nat} {st gl : Pos} :
    ∀ (fuel d : Nat) (s : SearchManager), Inv n st gl d s → openCnt n s < fuel →
      ∃ s4, runLoopAux .BFS fuel s = some s4 ∧ FinalOk n st gl s4 := by
  intro fuel
  induction fuel with
  | zero =>
    intro d s _ hcnt
    omega
  | succ f ih =>
    intro d s hinv hcnt
    rcases bfs_step hinv with ⟨s4, hb, hfin⟩ | ⟨d4, s4, hb, hinv4, hlt⟩
    · refine ⟨s4, ?_, hfin⟩
      rw [runLoopAux, if_neg (by rw [hinv.hfin]; simp)]
      have hsearch : search s .BFS = bfs s := rfl
      simp only [hsearch, hb]
      by_cases hps : s4.path_started = false
      · rw [if_pos hps]
      · rw [if_neg hps]
        exact runLoopAux_finished hfin.1 f
    · obtain ⟨s5, hloop, hfin5⟩ := ih d4 s4 hinv4 (by omega)
      refine ⟨s5, ?_, hfin5⟩
      rw [runLoopAux, if_neg (by rw [hinv.hfin]; simp)]
      have hsearch : search s .BFS = bfs s := rfl
      simp only [hsearch, hb]
      rw [if_neg (by rw [hinv4.hps]; simp)]
      exact hloop

/-- The first breadth-first step on the freshly configured obstacle-free grid:
the run starts at the start cell (not counted as visited, left START) and the
in-bounds neighbors of the start join the queue with ancestor start,
establishing the invariant at layer one. -/
lemma bfs_first {n : Nat} {st gl : Pos} (hst : inB n st) (hgl : inB n gl)
    (hne : st ≠ gl) :
    ∃ s4, bfs (mkEmpty n st gl) = some s4 ∧ Inv n st gl 1 s4 ∧
      openCnt n s4 ≤ n * n := by
  have hini : initCell st gl st.1.toNat st.2.toNat = { gridState := .START } := by
    rw [initCell]
    have hpeq : (((st.1.toNat : Int), (st.2.toNat : Int)) : Pos) = st :=
      Prod.ext (Int.toNat_of_nonneg hst.1) (Int.toNat_of_nonneg hst.2.2.1)
    rw [hpeq, if_pos rfl]
  have hcst0 : gridGetCell (mkEmpty n st gl).grid st = some { gridState := .START } :=
    (mkGrid_get hst).trans (congrArg some hini)
  have hsp : (mkEmpty n st gl).start_pos = some st := rfl
  have hexp : ∀ k, exploreStart k (mkEmpty n st gl) =
      some (true, { mkEmpty n st gl with last_explored := some st, path_started := true },
        0) := by
    intro k
    rw [exploreStart]
    simp only [hsp, hcst0]
    rw [if_neg (by decide)]
  have hstep0 : bfs (mkEmpty n st gl) =
      add_neighbors bfsOps
        { mkEmpty n st gl with last_explored := some st, path_started := true } := by
    show search_impl bfsOps (mkEmpty n st gl) = _
    rw [search_impl]
    have hfl : bfsOps.flen (mkEmpty n st gl) + 2 =
        (bfsOps.flen (mkEmpty n st gl) + 1) + 1 := rfl
    rw [hfl, exploreNextF_succ_notStarted rfl rfl, hexp _]
    rfl
  have hokS : okGrid n ({ mkEmpty n st gl with last_explored := some st, path_started := true } : SearchManager).grid := mkGrid_ok n st gl
  obtain ⟨s4, L, hadd, hq4, hndL, hchar, hok4, hstates4, hancm4, hancf4, hsz4,
    hsp4, hgp4, hps4, hle4, hfin4⟩ :=
    @add_neighbors_bfs n st
      { mkEmpty n st gl with last_explored := some st, path_started := true }
      hokS rfl rfl
  have hSm : ∀ q : Pos, inB n q → stateAt s4 q = stateAt (mkEmpty n st gl) q :=
    hstates4
  have hgs : gl ≠ st := fun hcon => hne hcon.symm
  have hstS : stateAt s4 st = some .START := by
    rw [hSm st hst, @stateAt_mkEmpty n st gl st hst]
    simp
  have hglS : stateAt s4 gl = some .GOAL := by
    rw [hSm gl hgl, @stateAt_mkEmpty n st gl gl hgl]
    simp [hgs]
  have hUS : ∀ q : Pos, inB n q → q ≠ st → q ≠ gl →
      stateAt s4 q = some .UNEXPLORED := by
    intro q hq h1 h2
    rw [hSm q hq, @stateAt_mkEmpty n st gl q hq]
    simp [h1, h2]
  have hopen4S : ∀ q : Pos, inB n q →
      (openC s4 q ↔ openC (mkEmpty n st gl) q) := by
    intro q hq
    unfold openC
    rw [hSm q hq]
  have hopenm : ∀ q : Pos, inB n q → q ≠ st → openC (mkEmpty n st gl) q := by
    intro q hq hqnst
    have hsq := @stateAt_mkEmpty n st gl q hq
    unfold openC
    rw [hsq]
    by_cases hqgl : q = gl
    · subst hqgl
      simp [hqnst]
    · simp [hqnst, hqgl]
  have hq4L : s4.bfs_queue = L := by simpa [mkEmpty] using hq4
  have hLd : ∀ r ∈ L, Dm st r = 1 := by
    intro r hr
    obtain ⟨off, hoff, hre, hin, hop, hnq⟩ := (hchar r).mp hr
    subst hre
    have hdn : Dm st (nbr st off) = Dm st st + 1 ∨
        Dm st (nbr st off) + 1 = Dm st st := Dm_neighbor hoff
    rw [Dm_self] at hdn
    rcases hdn with h | h
    · exact h
    · omega
  have hclosed_only_st : ∀ q : Pos, inB n q → closedC s4 q → q = st := by
    intro q hq hcl
    by_contra hqnst
    by_cases hqgl : q = gl
    · subst hqgl
      rcases hcl with h | h | h <;> rw [hglS] at h <;> simp at h
    · rcases hcl with h | h | h <;> rw [hUS q hq hqnst hqgl] at h <;> simp at h
  refine ⟨s4, hstep0.trans hadd, ⟨hok4, hsz4.trans rfl, hsp4.trans rfl,
    hgp4.trans rfl, hps4.trans rfl, hfin4.trans rfl, le_refl 1, hst, hgl,
    ⟨st, hle4.trans rfl, hst, Or.inl hstS⟩, hq4L ▸ hndL, ?_, ?_, ?_, ?_, ?_, ?_, ?_,
    hglS⟩, openCnt_le n s4⟩
  · refine ⟨L, [], by rw [hq4L]; simp, hLd, by simp⟩
  · intro r hr
    rw [hq4L] at hr
    obtain ⟨off, hoff, hre, hin, hop, hnq⟩ := (hchar r).mp hr
    exact ⟨hin, (hopen4S r hin).mpr hop⟩
  · intro q hq hlt
    have h0 : Dm st q = 0 := by omega
    have hq0 : st = q := Dm_eq_zero_iff.mp h0
    exact hq0 ▸ Or.inl hstS
  · intro q hq hd1
    obtain ⟨off, hoff, hqe⟩ := Dm_one hd1
    have hqnst : q ≠ st := by
      intro hcon
      rw [hcon, Dm_self] at hd1
      omega
    refine Or.inl ?_
    rw [hq4L]
    exact (hchar q).mpr ⟨off, hoff, hqe, hq, hopenm q hq hqnst, by simp [mkEmpty]⟩
  · intro q hq hgt
    have hqnst : q ≠ st := by
      intro hcon
      rw [hcon, Dm_self] at hgt
      omega
    exact (hopen4S q hq).mpr (hopenm q hq hqnst)
  · intro q hq hcl off hoff htin htopen
    have hqst := hclosed_only_st q hq hcl
    subst hqst
    rw [hq4L]
    refine (hchar _).mpr ⟨off, hoff, rfl, htin, ?_, by simp [mkEmpty]⟩
    exact (hopen4S _ htin).mp htopen
  · intro q hq hqst hdisj
    rcases hdisj with hcl | hmem
    · exact absurd (hclosed_only_st q hq hcl) hqst
    · rw [hq4L] at hmem
      refine ⟨st, hancm4 q hmem, hst, Or.inl hstS, ?_⟩
      have := hLd q hmem
      rw [Dm_self]
      omega

/-- Claim C4: on every obstacle-free grid with a start and a goal configured
(any size, any distinct in-bounds start and goal positions), running the
breadth-first strategy to completion reaches the goal — the metrics report
goal_reached true — and the reported pathLength(goal) equals the Manhattan
distance between start and goal, the sum of the absolute row and column
differences. -/
theorem c4_bfs_manhattan {n : Nat} {st gl : Pos}
    (hst : inB n st) (hgl : inB n gl) (hne : st ≠ gl) :
    ∃ m, run_algorithm_to_completion (mkEmpty n st gl) .BFS = some m ∧
      m.goal_reached = true ∧
      m.path_length = (st.1 - gl.1).natAbs + (st.2 - gl.2).natAbs := by
  have hn2 : 2 ≤ n := inB_two hst hgl hne
  have h4 : 4 ≤ n * n := Nat.mul_le_mul hn2 hn2
  have hloopfull : ∃ s6, runLoopAux .BFS (n * n * 2) (mkEmpty n st gl) = some s6 ∧
      FinalOk n st gl s6 := by
    obtain ⟨s5, hb1, hinv1, hcnt1⟩ := bfs_first hst hgl hne
    obtain ⟨s6, hloop, hfin⟩ := bfs_loop (n * n * 2 - 1) 1 s5 hinv1 (by omega)
    refine ⟨s6, ?_, hfin⟩
    have hsplit : n * n * 2 = (n * n * 2 - 1) + 1 := by omega
    rw [hsplit, runLoopAux]
    have hf0 : (mkEmpty n st gl).finished = false := rfl
    rw [if_neg (by rw [hf0]; simp)]
    have hsearch : search (mkEmpty n st gl) .BFS = bfs (mkEmpty n st gl) := rfl
    simp only [hsearch, hb1]
    rw [if_neg (by rw [hinv1.hps]; simp)]
    exact hloop
  obtain ⟨s6, hloop, hfin6, hgp6, hsz6, hplv⟩ := hloopfull
  refine ⟨⟨Algorithm.BFS.value, s6.cells_visited, Dm st gl, true⟩, ?_, rfl, rfl⟩
  rw [run_algorithm_to_completion]
  rw [reset_mkEmpty hgl hne]
  have hms : (mkEmpty n st gl).size * (mkEmpty n st gl).size * 2 = n * n * 2 := rfl
  show runLoopMetrics .BFS ((mkEmpty n st gl).size * (mkEmpty n st gl).size * 2)
    (mkEmpty n st gl) = _
  rw [hms, runLoopMetrics]
  simp only [hloop]
  rw [if_pos hfin6, hgp6]
  simp only [hplv]
  rw [hfin6]

/-- Concrete instantiation of the breadth-first shortest-path theorem: on the
3 by 3 obstacle-free grid with start (0, 0) and goal (2, 2) the completed run
reaches the goal with path length 4, the Manhattan distance. -/
theorem c4_bfs_manhattan_witness :
    inB 3 ((0, 0) : Pos) ∧ inB 3 ((2, 2) : Pos) ∧ ((0, 0) : Pos) ≠ (2, 2) ∧
    ∃ m, run_algorithm_to_completion (mkEmpty 3 (0, 0) (2, 2)) .BFS = some m ∧
      m.goal_reached = true ∧ m.path_length = 4 :=
  ⟨by decide, by decide, by decide,
    c4_bfs_manhattan (by decide) (by decide) (by decide)⟩

end PathFinder
